import Mathlib

/-!
Verification development for the congress-explorer-app synchronization
pipeline.  The definitions below are shallow embeddings of the JavaScript
population scripts:

* `src/dbSetup.js` — the bill population script (`inferChamber`,
  `fetchAndFilterBillUrls`, `ensureCommitteeExists`, `saveBillBatchToDb`,
  `main`);
* `src/unnamed/part_000` — the committee population script
  (`upsertBaseCommittees`, `processCommitteeDetailsBatch`,
  `processCommitteeReports`);
* `src/unnamed/part_001` — the member population script.

Database tables are modelled as Lean lists of row structures; SQL upserts
become explicit find/update-or-append functions; a transaction is a
computation in `Except` whose failure returns the pre-transaction state
(BEGIN … COMMIT / ROLLBACK); network fetches are oracles passed as
function parameters.  JavaScript truthiness on strings (null, undefined
and the empty string are all falsy) is modelled on `Option String`.
-/

namespace Congress

/-- JavaScript truthiness of a possibly-absent string: `null`, `undefined`
and `""` are falsy. -/
def truthyStr : Option String → Bool
  | none => false
  | some s => !s.isEmpty

/-- JavaScript `x || d` for strings: the default applies when `x` is
null, undefined or empty. -/
def orDefault (o : Option String) (d : String) : String :=
  match o with
  | some s => if s.isEmpty then d else s
  | none => d

/-- Substring test on character lists (JavaScript `String.includes`). -/
def charListHasInfix (pat : List Char) : List Char → Bool
  | [] => pat.isEmpty
  | c :: rest => pat.isPrefixOf (c :: rest) || charListHasInfix pat rest

/-- JavaScript `s.includes(pat)`. -/
def strIncludes (s pat : String) : Bool :=
  charListHasInfix pat.toList s.toList

/-- JavaScript `s.toLowerCase()`, modelled over the character list
(ASCII lowercasing, which covers the committee codes and names the
script handles). -/
def strToLower (s : String) : String :=
  ⟨s.toList.map Char.toLower⟩

/-- JavaScript `s.startsWith(pre)`. -/
def strStartsWith (s pre : String) : Bool :=
  pre.toList.isPrefixOf s.toList

/-! ### Committee chamber inference — `inferChamber`, dbSetup.js lines 364-386

The source function recurses on itself inside its own logging statement
(`console.log(… inferChamber(committee) …)`), which runs whenever the
chamber is absent and no rule matched.  The embedding makes the call
stack explicit with a fuel parameter: `none` models the stack overflow
of the unbounded recursion. -/

/-- A raw committee object as it arrives from the API (the argument of
`inferChamber` and `ensureCommitteeExists`). -/
structure ApiCommittee where
  chamber : Option String
  systemCode : Option String
  name : Option String
deriving Repr, DecidableEq

/-- `inferChamber` (dbSetup.js lines 364-386), with an explicit stack
bound.  When the chamber is absent and no rule matches, the source logs
`inferChamber(committee)` — a recursive call on the same argument — so
the final `return 'Unknown'` is reached only if that recursive call
returns, which it never does. -/
def inferChamberFuel : Nat → ApiCommittee → Option String
  | 0, _ => none
  | Nat.succ fuel, c =>
    if truthyStr c.chamber then c.chamber
    else
      let systemCode := strToLower (c.systemCode.getD "")
      let nm := strToLower (c.name.getD "")
      if strStartsWith systemCode "s" || strStartsWith systemCode "ss" then some "Senate"
      else if strStartsWith systemCode "h" || strStartsWith systemCode "hs" then some "House"
      else if strIncludes systemCode "jt" || strIncludes nm "joint" then some "Joint"
      else if strIncludes nm "senate" || strIncludes nm "foreign relations" then some "Senate"
      else if strIncludes nm "house" || strIncludes nm "representatives" then some "House"
      else
        match inferChamberFuel fuel c with
        | none => none
        | some _ => some "Unknown"

/-! ### The `committees` table and its two upsert paths -/

/-- A row of the `committees` table (dbSetup.js lines 82-90).
`is_current` and `updated_at` play no role in the claims and are
omitted. -/
structure CommitteeRow where
  systemCode : String
  name : String
  chamber : String
  committeeTypeCode : Option String
  parentCommitteeSystemCode : Option String
deriving Repr, DecidableEq

/-- First row matching a system code (`system_code` is the primary
key). -/
def findCommittee : List CommitteeRow → String → Option CommitteeRow
  | [], _ => none
  | r :: rest, code => if r.systemCode = code then some r else findCommittee rest code

/-- A committee record of the list payload consumed by
`upsertBaseCommittees` (part_000): `parentSystemCode` is
`committee.parent?.systemCode`. -/
structure BaseCommittee where
  systemCode : String
  name : String
  chamber : String
  committeeTypeCode : Option String
  parentSystemCode : Option String
deriving Repr, DecidableEq

/-- The `DO UPDATE SET` arm of pass 1: overwrite name, chamber and
committee type with the incoming values, leaving the parent pointer
alone. -/
def pass1Upd (c : BaseCommittee) (r : CommitteeRow) : CommitteeRow :=
  { r with name := c.name, chamber := c.chamber, committeeTypeCode := c.committeeTypeCode }

/-- Pass 1 of `upsertBaseCommittees` (part_000 lines 81-96): upsert by
`system_code`, `ON CONFLICT DO UPDATE SET name, chamber,
committee_type_code` — the parent pointer is not in the column list, so
an existing parent is preserved and a fresh row gets NULL. -/
def pass1Step (db : List CommitteeRow) (c : BaseCommittee) : List CommitteeRow :=
  match findCommittee db c.systemCode with
  | some _ =>
    db.map fun r => if r.systemCode = c.systemCode then pass1Upd c r else r
  | none => db ++ [⟨c.systemCode, c.name, c.chamber, c.committeeTypeCode, none⟩]

/-- The SET arm of the pass-2 UPDATE: wire the declared parent. -/
def pass2Upd (p : String) (r : CommitteeRow) : CommitteeRow :=
  { r with parentCommitteeSystemCode := some p }

/-- Pass 2 of `upsertBaseCommittees` (part_000 lines 98-108): `UPDATE
committees SET parent_committee_system_code = $1 WHERE system_code = $2`,
executed only when `committee.parent && committee.parent.systemCode` is
truthy.  `parent_committee_system_code` carries a foreign key onto
`committees(system_code)` (dbSetup.js line 87): when the UPDATE modifies
a row (the child's row exists) and the declared parent has no row, the
statement raises a foreign-key violation — modelled as `.error` with
the dangling code.  An UPDATE that matches no row modifies nothing and
checks nothing. -/
def pass2Step (db : List CommitteeRow) (c : BaseCommittee) : Except String (List CommitteeRow) :=
  match c.parentSystemCode with
  | some p =>
    if p.isEmpty then .ok db
    else
      match findCommittee db c.systemCode with
      | none => .ok db
      | some _ =>
        if (findCommittee db p).isSome then
          .ok (db.map fun r => if r.systemCode = c.systemCode then pass2Upd p r else r)
        else .error p
  | none => .ok db

/-- The pass-2 loop over the batch; the first failing UPDATE aborts
it. -/
def pass2Run : List CommitteeRow → List BaseCommittee → Except String (List CommitteeRow)
  | db, [] => .ok db
  | db, c :: rest =>
    match pass2Step db c with
    | .ok db' => pass2Run db' rest
    | .error e => .error e

/-- `upsertBaseCommittees` (part_000 lines 73-119): two passes over the
same input batch between BEGIN and COMMIT; any statement error rolls
the whole base upsert back (part_000 lines 112-114), returning the
pre-transaction table and a failure flag.  Pass 1's inserts cannot
violate a constraint inside the model's typed input space (name and
chamber are non-null strings and the system-code conflict is handled by
the upsert), so the transaction's failure mode is pass 2's parent
foreign key. -/
def upsertBaseCommittees (db : List CommitteeRow) (batch : List BaseCommittee) :
    List CommitteeRow × Bool :=
  match pass2Run (batch.foldl pass1Step db) batch with
  | .ok db' => (db', true)
  | .error _ => (db, false)

/-- The `DO UPDATE SET` arm of `ensureCommitteeExists`: `name =
COALESCE(EXCLUDED.name, committees.name)` (the excluded name is never
NULL thanks to the `|| 'Unknown Committee'` default) and `chamber = CASE
WHEN committees.chamber = 'Unknown' THEN EXCLUDED.chamber ELSE
committees.chamber END`. -/
def ensureUpd (c : ApiCommittee) (ch : String) (row : CommitteeRow) : CommitteeRow :=
  { row with
      name := orDefault c.name "Unknown Committee",
      chamber := if row.chamber = "Unknown" then ch else row.chamber }

/-- `ensureCommitteeExists` (dbSetup.js lines 485-503): returns
unchanged when `committee.systemCode` is falsy; otherwise upserts by
system code.  The whole query sits inside a try/catch, so a stack
overflow of `inferChamber` (fuel exhausted, modelled by `none`) leaves
the table untouched. -/
def ensureCommitteeExists (fuel : Nat) (db : List CommitteeRow) (c : ApiCommittee) :
    List CommitteeRow :=
  if !truthyStr c.systemCode then db
  else
    match c.systemCode, inferChamberFuel fuel c with
    | some sys, some ch =>
      match findCommittee db sys with
      | some _ =>
        db.map fun row => if row.systemCode = sys then ensureUpd c ch row else row
      | none => db ++ [⟨sys, orDefault c.name "Unknown Committee", ch, none, none⟩]
    | _, _ => db

/-! ### Staleness filtering — `fetchAndFilterBillUrls`, dbSetup.js lines 391-448 -/

/-- Natural key of a bill: (congress, type, number). -/
abbrev BillKey := Int × String × Int

/-- Milliseconds in the 7-day freshness window
(`7 * 24 * 60 * 60 * 1000`). -/
def sevenDaysMs : Int := 7 * 24 * 60 * 60 * 1000

/-- Watermark lookup over the rows the script read back from the
`bills` table for one page: `none` models a bill with no row at all,
`some none` a row whose `last_processed_at` column is NULL, and
`some (some t)` a row with watermark `t` (epoch milliseconds). -/
def lookupWatermark (rows : List (BillKey × Option Int)) (k : BillKey) :
    Option (Option Int) :=
  (rows.find? fun p => p.1 == k).map Prod.snd

/-- The per-bill staleness test of `fetchAndFilterBillUrls` (dbSetup.js
lines 424-434): the bill is skipped exactly when `lastProcessed` is
truthy and `new Date(lastProcessed) > sevenDaysAgo`; a missing row and a
NULL column are both falsy and never skipped. -/
def shouldProcessBill (now : Int) (w : Option (Option Int)) : Bool :=
  match w with
  | some (some t) => decide (t ≤ now - sevenDaysMs)
  | _ => true

/-- The filter applied to one API page of candidate bills: keep the
bills whose detail URL will be queued for processing. -/
def billFilterPage (now : Int) (rows : List (BillKey × Option Int))
    (apiBills : List BillKey) : List BillKey :=
  apiBills.filter fun k => shouldProcessBill now (lookupWatermark rows k)

/-! ### The relational state touched by `saveBillBatchToDb`

Rows carry the columns the bill script writes.  Timestamps and dates are
epoch-millisecond integers.  The `bill_action_committees`,
`bill_committees`, `bill_subjects`, `bill_text_versions` and
`cbo_cost_estimates` sub-writes of the source carry no weight in any
claim and are not part of the state. -/

/-- A row of `members` (the columns the bill script's stub insert
supplies; dbSetup.js lines 533-544). -/
structure MemberRow where
  bioguideId : String
  firstName : String
  lastName : String
  isCurrentMember : Option Bool
  updatedAt : Option Int
deriving Repr, DecidableEq

/-- A member detail payload (`{ member }` from the member detail
endpoint). -/
structure ApiMember where
  bioguideId : String
  firstName : Option String
  lastName : Option String
  isCurrentMember : Option Bool
  updatedAt : Option Int
deriving Repr, DecidableEq

/-- A row of `bills` (dbSetup.js lines 103-119). -/
structure BillRow where
  id : Nat
  congress : Int
  btype : String
  number : Int
  originChamber : Option String
  title : Option String
  introducedDate : Option Int
  policyAreaName : Option String
  sponsor : Option String
  isByRequest : Option Bool
  constitutionalAuthorityStatementText : Option String
  updatedAt : Option Int
  updatedAtIncludingText : Option Int
  lastProcessedAt : Option Int
deriving Repr, DecidableEq

/-- A row of `bill_actions` (the SERIAL id is not stored: the source
uses it only to link committees, a sub-write outside the model). -/
structure ActionRow where
  billId : Nat
  actionDate : Int
  text : String
  atype : Option String
  actionCode : Option String
  sourceSystemName : Option String
deriving Repr, DecidableEq

/-- A row of `bill_cosponsors`. -/
structure CosponsorRow where
  billId : Nat
  memberBioguideId : String
  sponsorshipDate : Int
  isOriginalCosponsor : Bool
  sponsorshipWithdrawnDate : Option Int
deriving Repr, DecidableEq

/-- A row of `bill_summaries`. -/
structure SummaryRow where
  billId : Nat
  versionCode : Option String
  actionDescription : Option String
  actionDate : Option Int
  text : Option String
  updatedAt : Option Int
deriving Repr, DecidableEq

/-- A row of `bill_titles`. -/
structure TitleRow where
  billId : Nat
  titleType : Option String
  title : Option String
  chamberCode : Option String
  chamberName : Option String
deriving Repr, DecidableEq

/-- A row of `committee_reports`. -/
structure ReportRow where
  id : Nat
  congress : Int
  chamber : String
  rtype : String
  number : Int
  part : Option Int
  citation : String
  title : String
  issueDate : Option Int
  isConferenceReport : Option Bool
  updatedAt : Option Int
deriving Repr, DecidableEq

/-- A row of `related_bills` (bill_id, related_bill_id,
relationship_type, identified_by). -/
structure RelatedLinkRow where
  billId : Nat
  relatedBillId : Nat
  relationshipType : String
  identifiedBy : String
deriving Repr, DecidableEq

/-- The portion of the database state the bill batch writer touches. -/
structure DbState where
  members : List MemberRow
  bills : List BillRow
  billActions : List ActionRow
  billCosponsors : List CosponsorRow
  billSummaries : List SummaryRow
  billTitles : List TitleRow
  committeeReports : List ReportRow
  reportAssociatedBills : List (Nat × Nat)
  relatedBills : List RelatedLinkRow
deriving Repr, DecidableEq

/-! ### Hydrated bill payloads (the batch handed to the writer) -/

/-- One element of `bill.sponsors`. -/
structure SponsorData where
  bioguideId : Option String
  isByRequest : Option String
deriving Repr, DecidableEq

/-- One fetched action item. -/
structure ActionData where
  actionDate : Int
  text : Option String
  atype : Option String
  actionCode : Option String
  sourceSystemName : Option String
deriving Repr, DecidableEq

/-- One fetched cosponsor item. -/
structure CosponsorData where
  bioguideId : Option String
  sponsorshipDate : Int
  isOriginalCosponsor : Bool
  sponsorshipWithdrawnDate : Option Int
deriving Repr, DecidableEq

/-- One fetched summary item. -/
structure SummaryData where
  versionCode : Option String
  actionDescription : Option String
  actionDate : Option Int
  text : Option String
  updatedAt : Option Int
deriving Repr, DecidableEq

/-- One fetched title item. -/
structure TitleData where
  titleType : Option String
  title : Option String
  chamberCode : Option String
  chamberName : Option String
deriving Repr, DecidableEq

/-- A committee-report stub embedded in a bill payload
(`bill.committeeReports`); the detail fetch is keyed by its URL. -/
structure ReportStub where
  url : Option String
  citation : Option String
deriving Repr, DecidableEq

/-- The `{ committeeReport }` detail payload. -/
structure ReportDetail where
  congress : Int
  chamber : Option String
  rtype : String
  number : Int
  part : Option Int
  citation : String
  title : Option String
  issueDate : Option Int
  isConferenceReport : Option Bool
  updatedAt : Option Int
deriving Repr, DecidableEq

/-- One relationship entry of a related bill. -/
structure RelationshipDetail where
  rtype : String
  identifiedBy : String
deriving Repr, DecidableEq

/-- One fetched related-bill item. -/
structure RelatedBillData where
  congress : Int
  btype : String
  number : Int
  title : Option String
  relationshipDetails : List RelationshipDetail
deriving Repr, DecidableEq

/-- A fully-hydrated bill record: the detail payload together with the
items gathered from its paginated sub-endpoints. -/
structure BillData where
  congress : Int
  btype : String
  number : Int
  originChamber : Option String
  title : Option String
  introducedDate : Option Int
  policyAreaName : Option String
  sponsors : List SponsorData
  constitutionalAuthorityStatementText : Option String
  updatedAt : Option Int
  updatedAtIncludingText : Option Int
  actions : List ActionData
  cosponsors : List CosponsorData
  committeeReports : List ReportStub
  relatedBills : List RelatedBillData
  summaries : List SummaryData
  titles : List TitleData
deriving Repr, DecidableEq

/-- The batch writer can fail a foreign-key constraint on
`bills.sponsor_bioguide_id` or on `bill_cosponsors.member_bioguide_id`;
any failure aborts the transaction. -/
inductive WriteError where
  | sponsorFk (bioguideId : String)
  | cosponsorFk (bioguideId : String)
deriving Repr, DecidableEq

/-! ### Primitive table operations -/

/-- The bioguide ids currently present in `members`. -/
def memberIds (db : DbState) : List String :=
  db.members.map MemberRow.bioguideId

/-- `INSERT INTO members … ON CONFLICT DO NOTHING` (dbSetup.js lines
533-544 and 656-667): field defaults `firstName || 'Unknown'`,
`lastName || 'Unknown'`. -/
def insertMemberIfAbsent (db : DbState) (m : ApiMember) : DbState :=
  if m.bioguideId ∈ memberIds db then db
  else
    { db with
        members := db.members ++
          [⟨m.bioguideId, orDefault m.firstName "Unknown", orDefault m.lastName "Unknown",
            m.isCurrentMember, m.updatedAt⟩] }

/-- The natural key of a bill row. -/
def billKeyOf (r : BillRow) : BillKey := (r.congress, r.btype, r.number)

/-- First bill row with the given natural key (the table carries a
UNIQUE constraint on it). -/
def findBill : List BillRow → BillKey → Option BillRow
  | [], _ => none
  | r :: rest, k => if billKeyOf r = k then some r else findBill rest k

/-- Apply `g` to every bill row whose natural key is `k` (the UPDATE arm
of an upsert). -/
def updateBillRows (bills : List BillRow) (k : BillKey) (g : BillRow → BillRow) :
    List BillRow :=
  bills.map fun r => if billKeyOf r = k then g r else r

/-- Next value of the `bills.id` SERIAL sequence. -/
def freshBillId (bills : List BillRow) : Nat :=
  bills.foldl (fun m r => max m r.id) 0 + 1

/-- The bill's sponsor id as the row stores it:
`bill.sponsors.length > 0 ? bill.sponsors[0].bioguideId : null`. -/
def sponsorOf (b : BillData) : Option String :=
  match b.sponsors.head? with
  | some sp => sp.bioguideId
  | none => none

/-- `bill.sponsors?.[0]?.isByRequest === 'Y'` — always a boolean. -/
def isByRequestOf (b : BillData) : Bool :=
  match b.sponsors.head? with
  | some sp => decide (sp.isByRequest = some "Y")
  | none => false

/-- Natural key of a hydrated payload. -/
def billDataKey (b : BillData) : BillKey := (b.congress, b.btype, b.number)

/-! ### The per-bill writes of `saveBillBatchToDb` (dbSetup.js lines 508-835) -/

/-- The `DO UPDATE SET` arm of the core bill upsert (dbSetup.js lines
555-577): every supplied column is overwritten and
`last_processed_at = NOW()`. -/
def mainBillRowUpdate (now : Int) (b : BillData) (r : BillRow) : BillRow :=
  { r with
      originChamber := b.originChamber,
      title := some (orDefault b.title "Untitled Bill"),
      introducedDate := b.introducedDate,
      policyAreaName := b.policyAreaName,
      sponsor := sponsorOf b,
      isByRequest := some (isByRequestOf b),
      constitutionalAuthorityStatementText := b.constitutionalAuthorityStatementText,
      updatedAt := b.updatedAt,
      updatedAtIncludingText := b.updatedAtIncludingText,
      lastProcessedAt := some now }

/-- The INSERT arm of the core bill upsert. -/
def mainBillNewRow (now : Int) (b : BillData) (fid : Nat) : BillRow :=
  { id := fid, congress := b.congress, btype := b.btype, number := b.number,
    originChamber := b.originChamber,
    title := some (orDefault b.title "Untitled Bill"),
    introducedDate := b.introducedDate,
    policyAreaName := b.policyAreaName,
    sponsor := sponsorOf b,
    isByRequest := some (isByRequestOf b),
    constitutionalAuthorityStatementText := b.constitutionalAuthorityStatementText,
    updatedAt := b.updatedAt,
    updatedAtIncludingText := b.updatedAtIncludingText,
    lastProcessedAt := some now }

/-- The core upsert once the FK check has passed, returning the row id
(`RETURNING id`). -/
def applyBillUpsert (now : Int) (db : DbState) (b : BillData) : DbState × Nat :=
  match findBill db.bills (billDataKey b) with
  | some r =>
    ({ db with bills := updateBillRows db.bills (billDataKey b) (mainBillRowUpdate now b) }, r.id)
  | none =>
    let fid := freshBillId db.bills
    ({ db with bills := db.bills ++ [mainBillNewRow now b fid] }, fid)

/-- The core bill upsert: `sponsor_bioguide_id REFERENCES
members(bioguide_id)` is enforced on both arms, so a non-NULL sponsor id
that is not stored fails the transaction. -/
def upsertBill (now : Int) (db : DbState) (b : BillData) :
    Except WriteError (DbState × Nat) :=
  match sponsorOf b with
  | some s =>
    if s ∈ memberIds db then .ok (applyBillUpsert now db b)
    else .error (.sponsorFk s)
  | none => .ok (applyBillUpsert now db b)

/-- `INSERT INTO bill_actions … ON CONFLICT (bill_id, action_date, text)
DO UPDATE SET type = EXCLUDED.type` (dbSetup.js lines 584-597); the text
defaults to 'No description'. -/
def upsertActionRow (tbl : List ActionRow) (row : ActionRow) : List ActionRow :=
  if ∃ r ∈ tbl, r.billId = row.billId ∧ r.actionDate = row.actionDate ∧ r.text = row.text then
    tbl.map fun r =>
      if r.billId = row.billId ∧ r.actionDate = row.actionDate ∧ r.text = row.text then
        { r with atype := row.atype }
      else r
  else tbl ++ [row]

/-- The actions loop (dbSetup.js lines 581-619, without the
`bill_action_committees` junction sub-write). -/
def processActions (db : DbState) (billId : Nat) (items : List ActionData) : DbState :=
  items.foldl
    (fun d a =>
      { d with
          billActions :=
            upsertActionRow d.billActions
              ⟨billId, a.actionDate, orDefault a.text "No description", a.atype, a.actionCode,
                a.sourceSystemName⟩ })
    db

/-- `cosponsors.map(c => c.bioguideId).filter(id => id)` — the truthy
cosponsor ids of the fetched list, duplicates kept. -/
def cosponsorIds (cs : List CosponsorData) : List String :=
  cs.filterMap fun c => c.bioguideId.bind fun s => if s.isEmpty then none else some s

/-- The missing-member fetch loop shared by the sponsor and cosponsor
paths: for each id, fetch the detail payload and insert a stub row when
the fetch yields a member; a failed fetch is silently skipped. -/
def fetchMissingMembers (f : String → Option ApiMember) (db : DbState) :
    List String → DbState
  | [] => db
  | s :: rest =>
    match f s with
    | some m => fetchMissingMembers f (insertMemberIfAbsent db m) rest
    | none => fetchMissingMembers f db rest

/-- The cosponsor insert loop (dbSetup.js lines 674-683): every fetched
cosponsor with a truthy bioguide id is inserted, whether or not its
member row could be resolved — `member_bioguide_id REFERENCES members`
fails the transaction for an unresolved id. -/
def insertCosponsorRows (billId : Nat) : DbState → List CosponsorData →
    Except WriteError DbState
  | db, [] => .ok db
  | db, c :: rest =>
    match c.bioguideId with
    | some cid =>
      if cid.isEmpty then insertCosponsorRows billId db rest
      else if cid ∈ memberIds db then
        let db' :=
          if ∃ r ∈ db.billCosponsors, r.billId = billId ∧ r.memberBioguideId = cid then db
          else
            { db with
                billCosponsors := db.billCosponsors ++
                  [⟨billId, cid, c.sponsorshipDate, c.isOriginalCosponsor,
                    c.sponsorshipWithdrawnDate⟩] }
        insertCosponsorRows billId db' rest
    else .error (.cosponsorFk cid)
    | none => insertCosponsorRows billId db rest

/-- The cosponsor block (dbSetup.js lines 641-684): resolve missing
members first, then insert every cosponsor row. -/
def processCosponsors (f : String → Option ApiMember) (db : DbState) (billId : Nat)
    (cs : List CosponsorData) : Except WriteError DbState :=
  let ids := cosponsorIds cs
  let missing := ids.filter fun s => s ∉ memberIds db
  insertCosponsorRows billId (fetchMissingMembers f db missing) cs

/-- First report row with the given citation (`citation` is UNIQUE). -/
def findReportByCitation : List ReportRow → String → Option ReportRow
  | [], _ => none
  | r :: rest, c => if r.citation = c then some r else findReportByCitation rest c

/-- Next value of the `committee_reports.id` SERIAL sequence. -/
def freshReportId (tbl : List ReportRow) : Nat :=
  tbl.foldl (fun m r => max m r.id) 0 + 1

/-- The `DO UPDATE SET` arm of the report upsert (dbSetup.js lines
698-719). -/
def reportRowUpdate (d : ReportDetail) (r : ReportRow) : ReportRow :=
  { r with
      congress := d.congress, chamber := orDefault d.chamber "Unknown", rtype := d.rtype,
      number := d.number, part := d.part, title := orDefault d.title "Untitled Report",
      issueDate := d.issueDate, isConferenceReport := d.isConferenceReport,
      updatedAt := d.updatedAt }

/-- `INSERT INTO committee_reports … ON CONFLICT (citation) DO UPDATE
… RETURNING id`. -/
def upsertReport (tbl : List ReportRow) (d : ReportDetail) : List ReportRow × Nat :=
  match findReportByCitation tbl d.citation with
  | some r =>
    (tbl.map fun x => if x.citation = d.citation then reportRowUpdate d x else x, r.id)
  | none =>
    let rid := freshReportId tbl
    (tbl ++
      [⟨rid, d.congress, orDefault d.chamber "Unknown", d.rtype, d.number, d.part, d.citation,
        orDefault d.title "Untitled Report", d.issueDate, d.isConferenceReport, d.updatedAt⟩],
      rid)

/-- The committee-report block (dbSetup.js lines 686-729): a stub
without a truthy URL is skipped, a failed detail fetch is skipped,
otherwise the report is upserted and linked to the bill. -/
def processReports (fr : String → Option ReportDetail) :
    DbState → Nat → List ReportStub → DbState
  | db, _, [] => db
  | db, billId, stub :: rest =>
    match stub.url with
    | none => processReports fr db billId rest
    | some u =>
      if u.isEmpty then processReports fr db billId rest
      else
        match fr u with
        | none => processReports fr db billId rest
        | some d =>
          let p := upsertReport db.committeeReports d
          let db1 := { db with committeeReports := p.1 }
          let db2 :=
            if (p.2, billId) ∈ db1.reportAssociatedBills then db1
            else { db1 with reportAssociatedBills := db1.reportAssociatedBills ++ [(p.2, billId)] }
          processReports fr db2 billId rest

/-- The related-bill stub upsert (dbSetup.js lines 735-745): `INSERT
INTO bills (congress, type, number, title) … ON CONFLICT DO UPDATE SET
title = EXCLUDED.title RETURNING id` — the watermark column is not
touched. -/
def relatedStubUpsert (bills : List BillRow) (d : RelatedBillData) : List BillRow × Nat :=
  match findBill bills (d.congress, d.btype, d.number) with
  | some r =>
    (updateBillRows bills (d.congress, d.btype, d.number)
        fun x => { x with title := some (orDefault d.title "Untitled Bill") },
      r.id)
  | none =>
    (bills ++
      [{ id := freshBillId bills, congress := d.congress, btype := d.btype, number := d.number,
          originChamber := none, title := some (orDefault d.title "Untitled Bill"),
          introducedDate := none, policyAreaName := none, sponsor := none, isByRequest := none,
          constitutionalAuthorityStatementText := none, updatedAt := none,
          updatedAtIncludingText := none, lastProcessedAt := none }],
      freshBillId bills)

/-- The related-bills block (dbSetup.js lines 731-759). -/
def processRelated : DbState → Nat → List RelatedBillData → DbState
  | db, _, [] => db
  | db, billId, d :: rest =>
    let p := relatedStubUpsert db.bills d
    let db1 := { db with bills := p.1 }
    let db2 :=
      d.relationshipDetails.foldl
        (fun dd rel =>
          if ∃ r ∈ dd.relatedBills,
              r.billId = billId ∧ r.relatedBillId = p.2 ∧ r.identifiedBy = rel.identifiedBy then
            dd
          else
            { dd with
                relatedBills := dd.relatedBills ++ [⟨billId, p.2, rel.rtype, rel.identifiedBy⟩] })
        db1
    processRelated db2 billId rest

/-- `INSERT INTO bill_summaries … ON CONFLICT (bill_id, version_code,
action_date) DO NOTHING`: Postgres unique indexes treat NULLs as
distinct, so a key containing a NULL never conflicts. -/
def insertSummaryRow (tbl : List SummaryRow) (row : SummaryRow) : List SummaryRow :=
  match row.versionCode, row.actionDate with
  | some v, some d =>
    if ∃ r ∈ tbl, r.billId = row.billId ∧ r.versionCode = some v ∧ r.actionDate = some d then tbl
    else tbl ++ [row]
  | _, _ => tbl ++ [row]

/-- The summaries block (dbSetup.js lines 761-771). -/
def processSummaries (db : DbState) (billId : Nat) (items : List SummaryData) : DbState :=
  items.foldl
    (fun d s =>
      { d with
          billSummaries :=
            insertSummaryRow d.billSummaries
              ⟨billId, s.versionCode, s.actionDescription, s.actionDate, s.text, s.updatedAt⟩ })
    db

/-- `INSERT INTO bill_titles … ON CONFLICT (bill_id, title_type, title)
DO NOTHING`, with the same NULL-distinct conflict semantics. -/
def insertTitleRow (tbl : List TitleRow) (row : TitleRow) : List TitleRow :=
  match row.titleType, row.title with
  | some tt, some t =>
    if ∃ r ∈ tbl, r.billId = row.billId ∧ r.titleType = some tt ∧ r.title = some t then tbl
    else tbl ++ [row]
  | _, _ => tbl ++ [row]

/-- The titles block (dbSetup.js lines 785-795). -/
def processTitles (db : DbState) (billId : Nat) (items : List TitleData) : DbState :=
  items.foldl
    (fun d t =>
      { d with
          billTitles :=
            insertTitleRow d.billTitles
              ⟨billId, t.titleType, t.title, t.chamberCode, t.chamberName⟩ })
    db

/-- Process a single hydrated bill inside the transaction: the core
upsert, then the sub-resource writes in source order. -/
def processBill (f : String → Option ApiMember) (fr : String → Option ReportDetail)
    (now : Int) (db : DbState) (b : BillData) : Except WriteError DbState :=
  match upsertBill now db b with
  | .error e => .error e
  | .ok (db1, billId) =>
    let db2 := processActions db1 billId b.actions
    match processCosponsors f db2 billId b.cosponsors with
    | .error e => .error e
    | .ok db3 =>
      let db4 := processReports fr db3 billId b.committeeReports
      let db5 := processRelated db4 billId b.relatedBills
      let db6 := processSummaries db5 billId b.summaries
      .ok (processTitles db6 billId b.titles)

/-- The per-bill loop of the transaction body. -/
def processBills (f : String → Option ApiMember) (fr : String → Option ReportDetail)
    (now : Int) : DbState → List BillData → Except WriteError DbState
  | db, [] => .ok db
  | db, b :: rest =>
    match processBill f fr now db b with
    | .ok db' => processBills f fr now db' rest
    | .error e => .error e

/-- The distinct truthy head-sponsor ids of the batch
(`[...new Set(billDataBatch.map(b => b.sponsors?.[0]?.bioguideId).filter(id => id))]`). -/
def sponsorHeadIds (batch : List BillData) : List String :=
  (batch.filterMap fun b =>
    match b.sponsors.head? with
    | some sp => sp.bioguideId.bind fun s => if s.isEmpty then none else some s
    | none => none).dedup

/-- The missing-sponsor resolution phase at the top of the transaction
(dbSetup.js lines 519-550). -/
def resolveSponsors (f : String → Option ApiMember) (db : DbState)
    (batch : List BillData) : DbState :=
  fetchMissingMembers f db ((sponsorHeadIds batch).filter fun s => s ∉ memberIds db)

/-- The transaction body between BEGIN and COMMIT. -/
def processBatchBody (f : String → Option ApiMember) (fr : String → Option ReportDetail)
    (now : Int) (db : DbState) (batch : List BillData) : Except WriteError DbState :=
  processBills f fr now (resolveSponsors f db batch) batch

/-- `saveBillBatchToDb` (dbSetup.js lines 508-835): an empty batch
returns before opening a transaction; otherwise the body runs between
BEGIN and COMMIT, and any error triggers ROLLBACK — the returned state
is the pre-transaction state and the flag records the failure. -/
def saveBillBatchToDb (f : String → Option ApiMember) (fr : String → Option ReportDetail)
    (now : Int) (db : DbState) (batch : List BillData) : DbState × Bool :=
  if batch.isEmpty then (db, true)
  else
    match processBatchBody f fr now db batch with
    | .ok db' => (db', true)
    | .error _ => (db, false)

/-! ### The orchestrating loop of `main` (dbSetup.js lines 852-886) -/

/-- The outcome of one detail fetch in the bounded-concurrency fan-out:
a 429 maps to the `RATE_LIMIT` sentinel, any other failure to `null`. -/
inductive DetailResult where
  | rateLimit
  | failed
  | fetched (b : BillData)
deriving Repr, DecidableEq

/-- Whether a fan-out result is the `RATE_LIMIT` sentinel. -/
def isRateLimitResult : DetailResult → Bool
  | .rateLimit => true
  | _ => false

/-- `results.filter(bill => bill !== null)` — the successfully fetched
payloads of a fan-out. -/
def okBills (results : List DetailResult) : List BillData :=
  results.filterMap fun r =>
    match r with
    | .fetched b => some b
    | _ => none

/-- The state of the batch loop: cursor index `i` into the URL work
list, plus the database state accumulated by committed batches. -/
structure SyncState where
  i : Nat
  db : DbState
deriving Repr, DecidableEq

/-- `billUrls.slice(i, i + BATCH_SIZE)` — the batch the cursor points
at. -/
def batchSlice (urls : List String) (batchSize i : Nat) : List String :=
  (urls.drop i).take batchSize

/-- One iteration of the batch loop of `main` (dbSetup.js lines
852-886): if any fan-out result is `RATE_LIMIT`, the code sleeps for the
cooldown, decrements `i` by `BATCH_SIZE` and `continue`s, after which
the for-update adds `BATCH_SIZE` back — cursor and database state are
exactly as before; otherwise the fetched payloads are committed and the
cursor advances. -/
def mainStep (f : String → Option ApiMember) (fr : String → Option ReportDetail)
    (now : Int) (batchSize : Nat) (results : List DetailResult) (st : SyncState) : SyncState :=
  if results.any isRateLimitResult then st
  else
    { i := st.i + batchSize,
      db := (saveBillBatchToDb f fr now st.db (okBills results)).1 }

/-! ### part_000 — report-associated-bill stubs and committee history -/

/-- The associated-bill stub upsert of `processCommitteeReports`
(part_000 lines 289-303): `INSERT INTO bills (congress, type, number) …
ON CONFLICT DO UPDATE SET congress = EXCLUDED.congress RETURNING id` —
it neither supplies nor updates `last_processed_at`. -/
def ensureBillForReportAssociation (bills : List BillRow) (congress : Int) (btype : String)
    (number : Int) : List BillRow × Nat :=
  match findBill bills (congress, btype, number) with
  | some r =>
    (updateBillRows bills (congress, btype, number) fun x => { x with congress := congress },
      r.id)
  | none =>
    (bills ++
      [{ id := freshBillId bills, congress := congress, btype := btype, number := number,
          originChamber := none, title := none, introducedDate := none, policyAreaName := none,
          sponsor := none, isByRequest := none, constitutionalAuthorityStatementText := none,
          updatedAt := none, updatedAtIncludingText := none, lastProcessedAt := none }],
      freshBillId bills)

/-- A history entry of a committee detail payload. -/
structure HistoryItem where
  officialName : Option String
  startDate : Option Int
  endDate : Option Int
deriving Repr, DecidableEq

/-- A row of `committee_history` (dbSetup.js lines 92-99): the table has
only a SERIAL primary key — no unique constraint over its data
columns. -/
structure HistoryRow where
  committeeSystemCode : String
  officialName : String
  startDate : Option Int
  endDate : Option Int
  establishingAuthority : Option String
deriving Repr, DecidableEq

/-- `INSERT INTO committee_history … ON CONFLICT DO NOTHING` (part_000
lines 151-158): `committee_history` has no unique constraint, so the
conflict clause can never fire and every execution appends a row. -/
def insertCommitteeHistory (tbl : List HistoryRow) (row : HistoryRow) : List HistoryRow :=
  tbl ++ [row]

/-- The history loop of `processCommitteeDetailsBatch` (part_000 lines
148-161): each item with a truthy `officialName` is inserted. -/
def processHistoryItems (tbl : List HistoryRow) (sysCode : String)
    (items : List HistoryItem) : List HistoryRow :=
  items.foldl
    (fun t it =>
      match it.officialName with
      | some nm =>
        if nm.isEmpty then t
        else insertCommitteeHistory t ⟨sysCode, nm, it.startDate, it.endDate, none⟩
      | none => t)
    tbl

/-! ### Observers used by the theorems -/

/-- Whether a transaction body failed specifically on the
`bills.sponsor_bioguide_id` foreign key. -/
def isSponsorFkErr : Except WriteError DbState → Bool
  | .error (.sponsorFk _) => true
  | _ => false

/-- The `last_processed_at` watermark stored for a natural key: `none`
when the row is absent or its column is NULL. -/
def watermarkIn (bills : List BillRow) (k : BillKey) : Option Int :=
  match findBill bills k with
  | some r => r.lastProcessedAt
  | none => none

/-- The natural keys of the hydrated payloads of a batch. -/
def batchKeys (batch : List BillData) : List BillKey :=
  batch.map billDataKey

/-- The parent pointer stored for a committee system code (`none` when
the row is absent, `some p?` when it exists with pointer `p?`). -/
def parentAt (db : List CommitteeRow) (code : String) : Option (Option String) :=
  (findCommittee db code).map CommitteeRow.parentCommitteeSystemCode

/-- The chamber stored for a committee system code. -/
def chamberAt (db : List CommitteeRow) (code : String) : Option String :=
  (findCommittee db code).map CommitteeRow.chamber

/-! ### Concrete fixtures for witnesses and counterexamples -/

/-- The empty database state. -/
def emptyDb : DbState := ⟨[], [], [], [], [], [], [], [], []⟩

/-- A bill payload with only its natural key populated. -/
def mkBareBill (congress : Int) (btype : String) (number : Int) : BillData :=
  ⟨congress, btype, number, none, none, none, none, [], none, none, none,
    [], [], [], [], [], []⟩

/-- A batch whose only bill carries one cosponsor that no oracle can
resolve. -/
def billWithLoneCosponsor : BillData :=
  { mkBareBill 119 "hr" 1 with cosponsors := [⟨some "C001", 0, true, none⟩] }

/-- A bill sponsored by an unseen member, also carrying one resolvable
title fact, whose single cosponsor cannot be resolved. -/
def billWithBadCosponsor : BillData :=
  { mkBareBill 119 "hr" 2 with
      sponsors := [⟨some "S100", none⟩],
      titles := [⟨some "official", some "An Act", none, none⟩],
      cosponsors := [⟨some "C404", 0, false, none⟩] }

/-- A database already holding the member `S100`. -/
def dbWithS100 : DbState :=
  { emptyDb with members := [⟨"S100", "Alex", "Doe", some true, none⟩] }

/-- A bill whose sponsor `S333` is unseen (used against an oracle whose
fetch fails). -/
def billWithUnseenSponsor : BillData :=
  { mkBareBill 119 "hr" 3 with sponsors := [⟨some "S333", none⟩] }

/-- A bill whose sponsor `S777` is unseen but fetchable. -/
def billWithFetchableSponsor : BillData :=
  { mkBareBill 119 "s" 4 with sponsors := [⟨some "S777", none⟩] }

/-- An oracle that resolves exactly the member `S777`. -/
def oracleS777 : String → Option ApiMember :=
  fun s => if s = "S777" then some ⟨"S777", some "Sam", some "Lee", some true, none⟩ else none

/-- A bill carrying a related-bill stub for a different natural key
(used for the watermark claim). -/
def billWithRelatedStub : BillData :=
  { mkBareBill 119 "hr" 5 with
      relatedBills := [⟨119, "s", 6, some "Companion", [⟨"identical", "CRS"⟩]⟩] }

/-- A committees table holding one committee with a known chamber. -/
def houseCommitteeTable : List CommitteeRow :=
  [⟨"hsag00", "Agriculture", "House", none, none⟩]

/-- A re-ingested payload for the same committee whose chamber field is
the literal  value the population scripts use for an unknown chamber. -/
def unknownChamberPayload : BaseCommittee :=
  ⟨"hsag00", "Agriculture", "Unknown", none, none⟩

/-- A subcommittee record declaring a parent that appears later in the
same batch. -/
def childCommitteeRecord : BaseCommittee :=
  ⟨"hsag16", "Nutrition Subcommittee", "House", some "Subcommittee", some "hsag"⟩

/-- The parent committee record, appearing after its child. -/
def parentCommitteeRecord : BaseCommittee :=
  ⟨"hsag", "Agriculture", "House", some "Standing", none⟩

/-- A committee record declaring a parent system code that is neither
in its batch nor already stored: its pass-2 UPDATE violates the parent
foreign key. -/
def rogueCommitteeRecord : BaseCommittee :=
  ⟨"sxyz", "Stray Subcommittee", "Senate", some "Subcommittee", some "zzzz"⟩

/-- A committee detail history entry. -/
def agricultureHistoryItem : HistoryItem :=
  ⟨some "Committee on Agriculture", some 0, none⟩

/-! ## Theorems -/

/-- C10: for a committee object with an absent chamber field whose
system code and name match none of the inference rules, `inferChamber`
never returns: the logging line recurses on the same argument at every
stack depth, so the function exhausts any finite stack (the claimed
termination with one of the four chamber values fails). -/
theorem c10_infer_chamber_diverges :
    ∀ fuel : Nat, inferChamberFuel fuel ⟨none, some "x1", some "budget"⟩ = none := by
  intro fuel
  induction fuel with
  | zero => rfl
  | succ n ih =>
    show (match inferChamberFuel n ⟨none, some "x1", some "budget"⟩ with
          | none => none
          | some _ => some "Unknown") = none
    rw [ih]

/-- C2: a candidate bill on an API page is excluded from the work list
exactly when the store holds a row for its key whose `last_processed_at`
is non-NULL and strictly newer than seven days before now; a missing row
or a NULL watermark always leaves it included. -/
theorem c2_staleness_filter (now : Int) (rows : List (BillKey × Option Int))
    (apiBills : List BillKey) (k : BillKey) (hk : k ∈ apiBills) :
    k ∉ billFilterPage now rows apiBills ↔
      ∃ t, lookupWatermark rows k = some (some t) ∧ now - sevenDaysMs < t := by
  cases hw : lookupWatermark rows k with
  | none => simp [billFilterPage, List.mem_filter, hk, shouldProcessBill, hw]
  | some w =>
    cases w with
    | none => simp [billFilterPage, List.mem_filter, hk, shouldProcessBill, hw]
    | some t =>
      simp only [billFilterPage, List.mem_filter, hk, shouldProcessBill, hw, true_and,
        decide_eq_true_eq, not_le]
      constructor
      · intro h
        exact ⟨t, rfl, by omega⟩
      · rintro ⟨t', ht', hlt⟩
        cases ht'
        omega

/-- C2 witness: with a stored watermark 10 ms newer than the 7-day
cutoff, the bill is excluded from the page's work list. -/
theorem c2_staleness_filter_witness :
    (((119 : Int), "hr", (1 : Int)) : BillKey) ∉
      billFilterPage (sevenDaysMs + 10)
        [((((119 : Int), "hr", (1 : Int)) : BillKey), some 20)]
        [(((119 : Int), "hr", (1 : Int)) : BillKey)] :=
  (c2_staleness_filter (sevenDaysMs + 10)
      [((((119 : Int), "hr", (1 : Int)) : BillKey), some 20)]
      [(((119 : Int), "hr", (1 : Int)) : BillKey)]
      (((119 : Int), "hr", (1 : Int)) : BillKey) (by decide)).mpr
    ⟨20, by decide, by decide⟩

/-- C1: whenever the batch writer reports failure — any write inside
the transaction errored — the database state it leaves behind is exactly
the state from before the batch began: no bill row, action, cosponsor,
summary, title, report, report link or related-bill fact of the batch
survives (ROLLBACK, dbSetup.js lines 829-832). -/
theorem c1_batch_rollback (f : String → Option ApiMember) (fr : String → Option ReportDetail)
    (now : Int) (db : DbState) (batch : List BillData)
    (h : (saveBillBatchToDb f fr now db batch).2 = false) :
    (saveBillBatchToDb f fr now db batch).1 = db := by
  unfold saveBillBatchToDb at h ⊢
  by_cases hb : batch.isEmpty
  · rw [if_pos hb] at h
    exact absurd h (by simp)
  · rw [if_neg hb] at h ⊢
    cases hpb : processBatchBody f fr now db batch with
    | ok db' => rw [hpb] at h; exact absurd h (by simp)
    | error e => rfl

/-- C1 witness: a concrete batch whose single bill references an
unresolvable cosponsor fails, and the writer hands back the untouched
pre-transaction state. -/
theorem c1_batch_rollback_witness :
    (saveBillBatchToDb (fun _ => none) (fun _ => none) 0 emptyDb [billWithLoneCosponsor]).1 =
      emptyDb :=
  c1_batch_rollback (fun _ => none) (fun _ => none) 0 emptyDb [billWithLoneCosponsor] (by decide)

/-- C6: when any detail fetch of the fan-out signals rate limiting, the
loop iteration leaves the cursor and the accumulated database state
untouched (so the next iteration retries exactly the same URL slice and
no previously committed batch is discarded). -/
theorem c6_rate_limit_keeps_cursor (f : String → Option ApiMember)
    (fr : String → Option ReportDetail) (now : Int) (batchSize : Nat)
    (results : List DetailResult) (st : SyncState) (urls : List String)
    (h : results.any isRateLimitResult = true) :
    mainStep f fr now batchSize results st = st ∧
      batchSlice urls batchSize (mainStep f fr now batchSize results st).i =
        batchSlice urls batchSize st.i := by
  have hm : mainStep f fr now batchSize results st = st := by
    unfold mainStep
    rw [if_pos h]
  exact ⟨hm, by rw [hm]⟩

/-- C6 witness: a fan-out of batch size 15 containing one 429 leaves a
concrete loop state unchanged. -/
theorem c6_rate_limit_keeps_cursor_witness :
    mainStep (fun _ => none) (fun _ => none) 0 15 [.rateLimit, .failed] ⟨30, emptyDb⟩ =
        ⟨30, emptyDb⟩ ∧
      batchSlice ["u1", "u2"] 15
          (mainStep (fun _ => none) (fun _ => none) 0 15 [.rateLimit, .failed]
            ⟨30, emptyDb⟩).i =
        batchSlice ["u1", "u2"] 15 (⟨30, emptyDb⟩ : SyncState).i :=
  c6_rate_limit_keeps_cursor (fun _ => none) (fun _ => none) 0 15 [.rateLimit, .failed]
    ⟨30, emptyDb⟩ ["u1", "u2"] (by decide)

/-- C9 (code evaluated at the failing input): re-ingesting the identical
committee detail payload duplicates its `committee_history` row — the
table has no unique constraint, so the statement's `ON CONFLICT DO
NOTHING` never fires and the second run is not a no-op, contradicting
the idempotence property. -/
theorem c9_history_reingestion_duplicates :
    (processHistoryItems [] "hsag" [agricultureHistoryItem]).length = 1 ∧
      (processHistoryItems (processHistoryItems [] "hsag" [agricultureHistoryItem]) "hsag"
          [agricultureHistoryItem]).length = 2 ∧
      processHistoryItems (processHistoryItems [] "hsag" [agricultureHistoryItem]) "hsag"
          [agricultureHistoryItem] ≠
        processHistoryItems [] "hsag" [agricultureHistoryItem] := by
  refine ⟨rfl, rfl, ?_⟩
  decide

/-- C3 counterexample: a batch whose single bill is sponsored by an
unseen member, against an upstream whose member detail fetch fails,
makes the batch write fail precisely the `sponsor_bioguide_id` foreign
key — no stub row was inserted before the bill row. -/
theorem c3_sponsor_fk_counterexample :
    isSponsorFkErr
        (processBatchBody (fun _ => none) (fun _ => none) 0 emptyDb
          [billWithUnseenSponsor]) =
      true := by
  decide

/-- C4 counterexample: the bill's cosponsor `C404` cannot be resolved,
yet the writer does not drop that single fact and keep the rest — the
whole batch fails and nothing at all is persisted, not even the bill row
and title whose references were all resolvable. -/
theorem c4_no_partial_commit_counterexample :
    saveBillBatchToDb (fun _ => none) (fun _ => none) 0 dbWithS100 [billWithBadCosponsor] =
        (dbWithS100, false) ∧
      findBill
          (saveBillBatchToDb (fun _ => none) (fun _ => none) 0 dbWithS100
              [billWithBadCosponsor]).1.bills
          (billDataKey billWithBadCosponsor) =
        none := by
  decide

/-- C5 counterexample: a committee stored with the known chamber
`House` is regressed to `Unknown` by the committee population script's
base upsert, whose `chamber = EXCLUDED.chamber` clause overwrites
unconditionally (part_000 lines 85-95). -/
theorem c5_chamber_regression_counterexample :
    chamberAt houseCommitteeTable "hsag00" = some "House" ∧
      chamberAt (pass1Step houseCommitteeTable unknownChamberPayload) "hsag00" =
        some "Unknown" := by
  decide

/-- Lookup after a key-targeted map-update of the committees table. -/
theorem findCommittee_map_update (db : List CommitteeRow) (code code' : String)
    (g : CommitteeRow → CommitteeRow) (hg : ∀ r, (g r).systemCode = r.systemCode) :
    findCommittee (db.map fun r => if r.systemCode = code then g r else r) code' =
      if code' = code then (findCommittee db code').map g else findCommittee db code' := by
  induction db with
  | nil =>
    simp only [List.map_nil, findCommittee]
    split <;> rfl
  | cons r rest ih =>
    by_cases h2 : code' = code
    · subst h2
      by_cases h1 : r.systemCode = code'
      · have hgr : (g r).systemCode = code' := by rw [hg r, h1]
        simp [List.map_cons, findCommittee, h1, hgr]
      · have hgr : ¬(g r).systemCode = code' := by rw [hg r]; exact h1
        simp only [List.map_cons, findCommittee, if_neg h1, if_neg hgr]
        rw [ih]
        simp
    · by_cases h1 : r.systemCode = code
      · have hgr : (g r).systemCode = code := by rw [hg r, h1]
        have hgr2 : ¬(g r).systemCode = code' := by
          rw [hgr]; intro hc; exact h2 hc.symm
        have hr2 : ¬r.systemCode = code' := by
          rw [h1]; intro hc; exact h2 hc.symm
        simp only [List.map_cons, findCommittee, if_pos h1, if_neg hgr2, if_neg hr2]
        rw [ih]
      · by_cases h3 : r.systemCode = code'
        · simp [List.map_cons, findCommittee, h1, h3, h2]
        · simp only [List.map_cons, findCommittee, if_neg h1, if_neg h3]
          rw [ih]

/-- Lookup in an appended committees table. -/
theorem findCommittee_append (db : List CommitteeRow) (r : CommitteeRow) (code : String) :
    findCommittee (db ++ [r]) code =
      match findCommittee db code with
      | some x => some x
      | none => if r.systemCode = code then some r else none := by
  induction db with
  | nil => simp [findCommittee]
  | cons x rest ih =>
    by_cases hx : x.systemCode = code
    · simp [findCommittee, hx]
    · simp only [List.cons_append, findCommittee, if_neg hx]
      exact ih

/-- Pass 1 of the committee upsert leaves every stored parent pointer
as it was and gives fresh rows a NULL parent. -/
theorem parentAt_pass1Step (db : List CommitteeRow) (c : BaseCommittee) (code : String) :
    parentAt (pass1Step db c) code =
      if code = c.systemCode then some ((parentAt db code).getD none)
      else parentAt db code := by
  cases hf : findCommittee db c.systemCode with
  | some r0 =>
    have hstep : pass1Step db c =
        db.map fun r => if r.systemCode = c.systemCode then pass1Upd c r else r := by
      unfold pass1Step
      rw [hf]
    rw [hstep]
    unfold parentAt
    rw [findCommittee_map_update db c.systemCode code (pass1Upd c) (fun r => rfl)]
    by_cases h : code = c.systemCode
    · subst h
      rw [hf]
      simp [pass1Upd]
    · simp [h]
  | none =>
    have hstep : pass1Step db c =
        db ++ [⟨c.systemCode, c.name, c.chamber, c.committeeTypeCode, none⟩] := by
      unfold pass1Step
      rw [hf]
    rw [hstep]
    unfold parentAt
    rw [findCommittee_append]
    by_cases h : code = c.systemCode
    · subst h
      rw [hf]
      simp
    · have hne : ¬(⟨c.systemCode, c.name, c.chamber, c.committeeTypeCode, none⟩ :
          CommitteeRow).systemCode = code := fun hc => h hc.symm
      cases hc : findCommittee db code <;> simp [h, hc, hne]

/-- A row's presence read through `parentAt` coincides with
`findCommittee`. -/
theorem parentAt_isSome_eq (db : List CommitteeRow) (code : String) :
    (parentAt db code).isSome = (findCommittee db code).isSome := by
  unfold parentAt
  cases findCommittee db code <;> rfl

/-- Shape of a successful pass-2 UPDATE: either nothing moved (no
declared parent, a falsy one, or no matching child row), or the
child's row took the declared parent pointer. -/
theorem pass2Step_ok_cases (db : List CommitteeRow) (c : BaseCommittee)
    (db2 : List CommitteeRow) (h : pass2Step db c = Except.ok db2) :
    db2 = db ∨ ∃ p, c.parentSystemCode = some p ∧
      db2 = db.map fun r => if r.systemCode = c.systemCode then pass2Upd p r else r := by
  obtain ⟨syc, nmc, chc, ctc, op⟩ := c
  cases op with
  | none =>
    have h2 : Except.ok db = Except.ok db2 := h
    injection h2 with h2
    exact Or.inl h2.symm
  | some p =>
    have h1 : pass2Step db ⟨syc, nmc, chc, ctc, some p⟩ =
        if p.isEmpty then Except.ok db
        else
          match findCommittee db syc with
          | none => Except.ok db
          | some _ =>
            if (findCommittee db p).isSome then
              Except.ok (db.map fun r => if r.systemCode = syc then pass2Upd p r else r)
            else Except.error p := rfl
    by_cases he : p.isEmpty = true
    · rw [h1, if_pos he] at h
      injection h with h
      exact Or.inl h.symm
    · rw [h1, if_neg he] at h
      cases hc : findCommittee db syc with
      | none =>
        rw [hc] at h
        have h2 : Except.ok db = Except.ok db2 := h
        injection h2 with h2
        exact Or.inl h2.symm
      | some r0 =>
        rw [hc] at h
        have h2 : (if (findCommittee db p).isSome then
              Except.ok (db.map fun r => if r.systemCode = syc then pass2Upd p r else r)
            else Except.error p : Except String (List CommitteeRow)) = Except.ok db2 := h
        by_cases hps : (findCommittee db p).isSome = true
        · rw [if_pos hps] at h2
          injection h2 with h2
          exact Or.inr ⟨p, rfl, h2.symm⟩
        · rw [if_neg hps] at h2
          exact Except.noConfusion h2

/-- A successful pass-2 UPDATE for a different system code does not
move the parent pointer observed at `code`. -/
theorem parentAt_pass2Step_ok_other (db : List CommitteeRow) (c : BaseCommittee)
    (db2 : List CommitteeRow) (h : pass2Step db c = Except.ok db2) (code : String)
    (hne : code ≠ c.systemCode) :
    parentAt db2 code = parentAt db code := by
  rcases pass2Step_ok_cases db c db2 h with rfl | ⟨p, hp, rfl⟩
  · rfl
  · unfold parentAt
    rw [findCommittee_map_update db c.systemCode code (pass2Upd p) (fun r => rfl)]
    simp [hne]

/-- A successful pass-2 UPDATE never removes a row. -/
theorem parentAt_pass2Step_ok_isSome (db : List CommitteeRow) (c : BaseCommittee)
    (db2 : List CommitteeRow) (h : pass2Step db c = Except.ok db2) (code : String)
    (h0 : (parentAt db code).isSome = true) :
    (parentAt db2 code).isSome = true := by
  rcases pass2Step_ok_cases db c db2 h with rfl | ⟨p, hp, rfl⟩
  · exact h0
  · unfold parentAt at h0 ⊢
    rw [findCommittee_map_update db c.systemCode code (pass2Upd p) (fun r => rfl)]
    by_cases hc : code = c.systemCode
    · rw [if_pos hc]
      simpa using h0
    · rw [if_neg hc]
      exact h0

/-- When the declared parent is truthy and both the child's row and the
parent's row exist, the pass-2 UPDATE succeeds and wires the
pointer. -/
theorem pass2Step_sets (db : List CommitteeRow) (c : BaseCommittee) (p : String)
    (hdecl : c.parentSystemCode = some p) (hp : ¬p.isEmpty = true)
    (hchild : (parentAt db c.systemCode).isSome = true)
    (hpar : (findCommittee db p).isSome = true) :
    pass2Step db c =
      Except.ok (db.map fun r => if r.systemCode = c.systemCode then pass2Upd p r else r) := by
  obtain ⟨r0, hr0⟩ : ∃ r0, findCommittee db c.systemCode = some r0 := by
    unfold parentAt at hchild
    cases hfc : findCommittee db c.systemCode with
    | some r0 => exact ⟨r0, rfl⟩
    | none => rw [hfc] at hchild; simp at hchild
  have h1 : pass2Step db c =
      if p.isEmpty then Except.ok db
      else
        match findCommittee db c.systemCode with
        | none => Except.ok db
        | some _ =>
          if (findCommittee db p).isSome then
            Except.ok (db.map fun r => if r.systemCode = c.systemCode then pass2Upd p r else r)
          else Except.error p := by
    unfold pass2Step
    rw [hdecl]
  rw [h1, if_neg hp, hr0]
  exact if_pos hpar

/-- A pass-2 UPDATE whose truthy declared parent (if any) has a row
cannot fail. -/
theorem pass2Step_ok_of_resolvable (db : List CommitteeRow) (c : BaseCommittee)
    (hres : ∀ p, c.parentSystemCode = some p → ¬p.isEmpty = true →
      (findCommittee db p).isSome = true) :
    ∃ db2, pass2Step db c = Except.ok db2 := by
  cases hp : c.parentSystemCode with
  | none =>
    refine ⟨db, ?_⟩
    unfold pass2Step
    rw [hp]
  | some p =>
    have h1 : pass2Step db c =
        if p.isEmpty then Except.ok db
        else
          match findCommittee db c.systemCode with
          | none => Except.ok db
          | some _ =>
            if (findCommittee db p).isSome then
              Except.ok (db.map fun r => if r.systemCode = c.systemCode then pass2Upd p r else r)
            else Except.error p := by
      unfold pass2Step
      rw [hp]
    by_cases he : p.isEmpty = true
    · refine ⟨db, ?_⟩
      rw [h1]
      exact if_pos he
    · cases hc : findCommittee db c.systemCode with
      | none =>
        refine ⟨db, ?_⟩
        rw [h1, if_neg he, hc]
      | some r0 =>
        refine ⟨db.map fun r => if r.systemCode = c.systemCode then pass2Upd p r else r, ?_⟩
        rw [h1, if_neg he, hc]
        exact if_pos (hres p hp he)

/-- After pass 1 over a whole batch: a system code named in the batch
has a row whose parent pointer is its pre-existing value (or NULL for a
fresh row), and any other code is untouched — pass 1 never sets a
parent pointer. -/
theorem parentAt_pass1_fold (batch : List BaseCommittee) (db : List CommitteeRow)
    (code : String) :
    parentAt (batch.foldl pass1Step db) code =
      if code ∈ batch.map BaseCommittee.systemCode then some ((parentAt db code).getD none)
      else parentAt db code := by
  induction batch generalizing db with
  | nil => simp
  | cons c rest ih =>
    simp only [List.foldl_cons, List.map_cons, List.mem_cons]
    rw [ih, parentAt_pass1Step]
    by_cases hc : code = c.systemCode <;>
      by_cases hm : code ∈ List.map BaseCommittee.systemCode rest <;>
        simp [hc, hm]

/-- Appending pass-2 work sequences the runs: the tail runs on the
head's result, and a head error aborts everything. -/
theorem pass2Run_append (xs ys : List BaseCommittee) :
    ∀ db : List CommitteeRow,
      pass2Run db (xs ++ ys) =
        match pass2Run db xs with
        | Except.ok d => pass2Run d ys
        | Except.error e => Except.error e := by
  induction xs with
  | nil =>
    intro db
    rfl
  | cons x xs ih =>
    intro db
    simp only [List.cons_append, pass2Run]
    cases pass2Step db x with
    | ok d => exact ih d
    | error e => rfl

/-- Splitting a successful pass-2 run at a list split point. -/
theorem pass2Run_ok_split (xs ys : List BaseCommittee) (db db3 : List CommitteeRow)
    (h : pass2Run db (xs ++ ys) = Except.ok db3) :
    ∃ d, pass2Run db xs = Except.ok d ∧ pass2Run d ys = Except.ok db3 := by
  rw [pass2Run_append xs ys db] at h
  cases hx : pass2Run db xs with
  | ok d =>
    rw [hx] at h
    have h2 : pass2Run d ys = Except.ok db3 := h
    exact ⟨d, rfl, h2⟩
  | error e =>
    rw [hx] at h
    have h2 : (Except.error e : Except String (List CommitteeRow)) = Except.ok db3 := h
    exact Except.noConfusion h2

/-- Splitting a successful pass-2 run at its head record. -/
theorem pass2Run_ok_cons (c : BaseCommittee) (rest : List BaseCommittee)
    (db db3 : List CommitteeRow) (h : pass2Run db (c :: rest) = Except.ok db3) :
    ∃ d, pass2Step db c = Except.ok d ∧ pass2Run d rest = Except.ok db3 := by
  simp only [pass2Run] at h
  cases hs : pass2Step db c with
  | ok d =>
    rw [hs] at h
    have h2 : pass2Run d rest = Except.ok db3 := h
    exact ⟨d, rfl, h2⟩
  | error e =>
    rw [hs] at h
    have h2 : (Except.error e : Except String (List CommitteeRow)) = Except.ok db3 := h
    exact Except.noConfusion h2

/-- A successful pass-2 run over records none of which names `code`
leaves the pointer at `code` unchanged. -/
theorem pass2Run_ok_parentAt_untouched (l : List BaseCommittee) (code : String) :
    ∀ db db3 : List CommitteeRow, pass2Run db l = Except.ok db3 →
      (∀ c ∈ l, c.systemCode ≠ code) → parentAt db3 code = parentAt db code := by
  induction l with
  | nil =>
    intro db db3 h _
    have h2 : Except.ok db = Except.ok db3 := h
    injection h2 with h2
    rw [← h2]
  | cons c rest ih =>
    intro db db3 h hno
    obtain ⟨d, hs, h2⟩ := pass2Run_ok_cons c rest db db3 h
    rw [ih d db3 h2 (fun x hx => hno x (List.mem_cons_of_mem _ hx)),
      parentAt_pass2Step_ok_other db c d hs code
        (fun hcode => hno c (List.mem_cons_self _ _) hcode.symm)]

/-- A successful pass-2 run never removes a row. -/
theorem pass2Run_ok_isSome (l : List BaseCommittee) (code : String) :
    ∀ db db3 : List CommitteeRow, pass2Run db l = Except.ok db3 →
      (parentAt db code).isSome = true → (parentAt db3 code).isSome = true := by
  induction l with
  | nil =>
    intro db db3 h h0
    have h2 : Except.ok db = Except.ok db3 := h
    injection h2 with h2
    rw [← h2]
    exact h0
  | cons c rest ih =>
    intro db db3 h h0
    obtain ⟨d, hs, h2⟩ := pass2Run_ok_cons c rest db db3 h
    exact ih d db3 h2 (parentAt_pass2Step_ok_isSome db c d hs code h0)

/-- When every truthy declared parent in the work list has a row, the
pass-2 run succeeds. -/
theorem pass2Run_ok_of_resolvable (l : List BaseCommittee) :
    ∀ db : List CommitteeRow,
      (∀ c ∈ l, ∀ p, c.parentSystemCode = some p → ¬p.isEmpty = true →
        (findCommittee db p).isSome = true) →
      ∃ db3, pass2Run db l = Except.ok db3 := by
  induction l with
  | nil =>
    intro db _
    exact ⟨db, rfl⟩
  | cons c rest ih =>
    intro db hres
    obtain ⟨d, hd⟩ := pass2Step_ok_of_resolvable db c
      (fun p hp he => hres c (List.mem_cons_self _ _) p hp he)
    have hpres : ∀ p, (findCommittee db p).isSome = true →
        (findCommittee d p).isSome = true := by
      intro p h0
      have h1 : (parentAt db p).isSome = true := by
        rw [parentAt_isSome_eq]
        exact h0
      have h2 := parentAt_pass2Step_ok_isSome db c d hd p h1
      rw [parentAt_isSome_eq] at h2
      exact h2
    obtain ⟨db3, h3⟩ := ih d
      (fun c2 hc2 p hp he => hpres p (hres c2 (List.mem_cons_of_mem _ hc2) p hp he))
    refine ⟨db3, ?_⟩
    simp only [pass2Run]
    rw [hd]
    exact h3

/-- C7 counterexample: the parent foreign key on
`parent_committee_system_code` (dbSetup.js line 87) makes the claim
fail as stated — over an empty store, a batch in which the child
`hsag16` declares its parent `hsag` (also present in the batch) but a
third record declares the dangling parent `zzzz` has its pass-2 UPDATE
raise the foreign-key violation, and the whole base-upsert transaction
rolls back (part_000 lines 112-114): afterwards the child has no row at
all, let alone the claimed parent pointer. -/
theorem c7_dangling_parent_counterexample :
    (upsertBaseCommittees [] [childCommitteeRecord, parentCommitteeRecord,
        rogueCommitteeRecord]).2 = false ∧
      parentAt (upsertBaseCommittees [] [childCommitteeRecord, parentCommitteeRecord,
          rogueCommitteeRecord]).1 childCommitteeRecord.systemCode = none := by
  decide

/-- C7 (amended): provided every committee in the batch that declares a
truthy parent declares one present in the batch or already stored, the
two-pass upsert commits, and for every committee in the batch whose
declared parent is also in the batch — even when the child record
precedes the parent record — the child's row carries the parent's
system code, the parent's row exists, and pass 1 set no parent pointer
(every pointer after pass 1 is the pre-existing value, or NULL for
fresh rows). -/
theorem c7_two_pass_hierarchy_amended (db : List CommitteeRow) (batch : List BaseCommittee)
    (child parentRec : BaseCommittee)
    (hnodup : (batch.map BaseCommittee.systemCode).Nodup)
    (hchild : child ∈ batch) (hparent : parentRec ∈ batch)
    (hdecl : child.parentSystemCode = some parentRec.systemCode)
    (hne : parentRec.systemCode ≠ "")
    (hresolve : ∀ c ∈ batch, ∀ p, c.parentSystemCode = some p → ¬p.isEmpty = true →
      p ∈ batch.map BaseCommittee.systemCode ∨ (findCommittee db p).isSome = true) :
    (upsertBaseCommittees db batch).2 = true ∧
      parentAt (upsertBaseCommittees db batch).1 child.systemCode =
        some (some parentRec.systemCode) ∧
      (parentAt (upsertBaseCommittees db batch).1 parentRec.systemCode).isSome = true ∧
      ∀ code, parentAt (batch.foldl pass1Step db) code =
        if code ∈ batch.map BaseCommittee.systemCode then some ((parentAt db code).getD none)
        else parentAt db code := by
  have hpne : ¬(parentRec.systemCode.isEmpty = true) := fun hh =>
    hne ((String.isEmpty_iff parentRec.systemCode).mp hh)
  have hex_child : (parentAt (batch.foldl pass1Step db) child.systemCode).isSome = true := by
    rw [parentAt_pass1_fold]
    have hm : child.systemCode ∈ batch.map BaseCommittee.systemCode :=
      List.mem_map_of_mem _ hchild
    simp [hm]
  have hex_parent : (parentAt (batch.foldl pass1Step db) parentRec.systemCode).isSome = true := by
    rw [parentAt_pass1_fold]
    have hm : parentRec.systemCode ∈ batch.map BaseCommittee.systemCode :=
      List.mem_map_of_mem _ hparent
    simp [hm]
  have hresolve1 : ∀ c ∈ batch, ∀ p, c.parentSystemCode = some p → ¬p.isEmpty = true →
      (findCommittee (batch.foldl pass1Step db) p).isSome = true := by
    intro c hc p hp he
    rw [← parentAt_isSome_eq, parentAt_pass1_fold]
    rcases hresolve c hc p hp he with hm | hst
    · simp [hm]
    · have hs2 : (parentAt db p).isSome = true := by
        rw [parentAt_isSome_eq]
        exact hst
      by_cases hm : p ∈ batch.map BaseCommittee.systemCode
      · simp [hm]
      · rw [if_neg hm]
        exact hs2
  obtain ⟨dbF, hrun⟩ := pass2Run_ok_of_resolvable batch (batch.foldl pass1Step db) hresolve1
  have hsave : upsertBaseCommittees db batch = (dbF, true) := by
    unfold upsertBaseCommittees
    rw [hrun]
  rw [hsave]
  refine ⟨rfl, ?_, ?_, fun code => parentAt_pass1_fold batch db code⟩
  · show parentAt dbF child.systemCode = some (some parentRec.systemCode)
    obtain ⟨l1, l2, hsplit⟩ := List.append_of_mem hchild
    have hrunsplit : pass2Run (batch.foldl pass1Step db) (l1 ++ child :: l2) =
        Except.ok dbF := by
      rw [← hsplit]
      exact hrun
    obtain ⟨dA, h1, h2⟩ := pass2Run_ok_split l1 (child :: l2) _ dbF hrunsplit
    obtain ⟨dB, hstep0, h3⟩ := pass2Run_ok_cons child l2 dA dbF h2
    have hchildA : (parentAt dA child.systemCode).isSome = true :=
      pass2Run_ok_isSome l1 child.systemCode _ dA h1 hex_child
    have hparA : (findCommittee dA parentRec.systemCode).isSome = true := by
      have hx := pass2Run_ok_isSome l1 parentRec.systemCode _ dA h1 hex_parent
      rw [parentAt_isSome_eq] at hx
      exact hx
    have hstepeq := pass2Step_sets dA child parentRec.systemCode hdecl hpne hchildA hparA
    rw [hstep0] at hstepeq
    injection hstepeq with hdB
    subst hdB
    have hnol2 : ∀ x ∈ l2, x.systemCode ≠ child.systemCode := by
      intro x hx hcontra
      rw [hsplit, List.map_append, List.map_cons] at hnodup
      have hnodup2 := hnodup.of_append_right
      have hnotmem := (List.nodup_cons.mp hnodup2).1
      exact hnotmem (hcontra ▸ List.mem_map_of_mem _ hx)
    rw [pass2Run_ok_parentAt_untouched l2 child.systemCode _ dbF h3 hnol2]
    unfold parentAt
    rw [findCommittee_map_update dA child.systemCode child.systemCode
      (pass2Upd parentRec.systemCode) (fun r => rfl)]
    obtain ⟨r0, hr0⟩ : ∃ r0, findCommittee dA child.systemCode = some r0 := by
      unfold parentAt at hchildA
      cases hfc : findCommittee dA child.systemCode with
      | some r0 => exact ⟨r0, rfl⟩
      | none => rw [hfc] at hchildA; simp at hchildA
    rw [hr0]
    simp [pass2Upd]
  · show (parentAt dbF parentRec.systemCode).isSome = true
    exact pass2Run_ok_isSome batch parentRec.systemCode _ dbF hrun hex_parent

/-- C7 (amended) witness: over an empty store, the two-record batch in
which the subcommittee `hsag16` precedes its parent `hsag` — and every
declared parent resolves within the batch — commits, with the child
pointing at the parent and both rows present. -/
theorem c7_two_pass_hierarchy_amended_witness :
    (upsertBaseCommittees [] [childCommitteeRecord, parentCommitteeRecord]).2 = true ∧
      parentAt (upsertBaseCommittees [] [childCommitteeRecord, parentCommitteeRecord]).1
          childCommitteeRecord.systemCode =
        some (some parentCommitteeRecord.systemCode) ∧
      (parentAt (upsertBaseCommittees [] [childCommitteeRecord, parentCommitteeRecord]).1
          parentCommitteeRecord.systemCode).isSome = true := by
  have h := c7_two_pass_hierarchy_amended [] [childCommitteeRecord, parentCommitteeRecord]
    childCommitteeRecord parentCommitteeRecord (by decide) (List.mem_cons_self _ _)
    (by simp) (by decide) (by decide) (by
      intro c hc p hp hpe
      rcases List.mem_cons.mp hc with rfl | hc2
      · have h2 : (some "hsag" : Option String) = some p := hp
        injection h2 with h2
        subst h2
        left
        decide
      · rcases List.mem_cons.mp hc2 with rfl | hc3
        · have h2 : (none : Option String) = some p := hp
          exact Option.noConfusion h2
        · exact absurd hc3 (List.not_mem_nil c))
  exact ⟨h.1, h.2.1, h.2.2.1⟩

/-- C5 (amended): only the bill-script upsert `ensureCommitteeExists`
protects a stored non-Unknown chamber — it preserves the stored value
whenever it is not `'Unknown'` — while the committee-script base upsert
overwrites the stored chamber unconditionally with the incoming
payload's chamber value. -/
theorem c5_chamber_monotone_amended (fuel : Nat) (db : List CommitteeRow) (c : ApiCommittee)
    (sys : String) (r : CommitteeRow)
    (hsys : c.systemCode = some sys) (hr : findCommittee db sys = some r)
    (hknown : r.chamber ≠ "Unknown") :
    chamberAt (ensureCommitteeExists fuel db c) sys = some r.chamber ∧
      ∀ (db2 : List CommitteeRow) (c2 : BaseCommittee) (r2 : CommitteeRow),
        findCommittee db2 c2.systemCode = some r2 →
        chamberAt (pass1Step db2 c2) c2.systemCode = some c2.chamber := by
  constructor
  · by_cases ht : truthyStr c.systemCode = true
    · cases hic : inferChamberFuel fuel c with
      | none =>
        have hstep : ensureCommitteeExists fuel db c = db := by
          unfold ensureCommitteeExists
          rw [ht, hsys, hic]
          rfl
        rw [hstep]
        unfold chamberAt
        rw [hr]
        rfl
      | some ch =>
        have hstepA : ensureCommitteeExists fuel db c =
            match findCommittee db sys with
            | some _ => db.map fun row => if row.systemCode = sys then ensureUpd c ch row else row
            | none => db ++ [⟨sys, orDefault c.name "Unknown Committee", ch, none, none⟩] := by
          unfold ensureCommitteeExists
          rw [ht, hsys, hic]
          rfl
        have hstep : ensureCommitteeExists fuel db c =
            db.map fun row => if row.systemCode = sys then ensureUpd c ch row else row := by
          rw [hstepA, hr]
        rw [hstep]
        unfold chamberAt
        rw [findCommittee_map_update db sys sys (ensureUpd c ch) (fun row => rfl), if_pos rfl,
          hr]
        simp [ensureUpd, hknown]
    · have hstep : ensureCommitteeExists fuel db c = db := by
        unfold ensureCommitteeExists
        simp only [Bool.not_eq_true] at ht
        rw [ht]
        rfl
      rw [hstep]
      unfold chamberAt
      rw [hr]
      rfl
  · intro db2 c2 r2 h2
    have hstep : pass1Step db2 c2 =
        db2.map fun row => if row.systemCode = c2.systemCode then pass1Upd c2 row else row := by
      unfold pass1Step
      rw [h2]
    rw [hstep]
    unfold chamberAt
    rw [findCommittee_map_update db2 c2.systemCode c2.systemCode (pass1Upd c2) (fun row => rfl),
      if_pos rfl, h2]
    simp [pass1Upd]

/-- C5 witness: a stored `House` chamber survives a re-ingestion whose
inferred chamber is `Unknown` on the bill-script path. -/
theorem c5_chamber_monotone_amended_witness :
    chamberAt
        (ensureCommitteeExists 1 houseCommitteeTable
          ⟨some "Unknown", some "hsag00", some "Agriculture"⟩)
        "hsag00" =
      some "House" :=
  (c5_chamber_monotone_amended 1 houseCommitteeTable
      ⟨some "Unknown", some "hsag00", some "Agriculture"⟩ "hsag00"
      ⟨"hsag00", "Agriculture", "House", none, none⟩ rfl (by decide) (by decide)).1

/-- Lookup after a key-targeted map-update of the bills table. -/
theorem findBill_updateBillRows (bills : List BillRow) (k k' : BillKey)
    (g : BillRow → BillRow) (hg : ∀ r, billKeyOf r = k → billKeyOf (g r) = billKeyOf r) :
    findBill (updateBillRows bills k g) k' =
      if k' = k then (findBill bills k').map g else findBill bills k' := by
  induction bills with
  | nil =>
    simp only [updateBillRows, List.map_nil, findBill]
    split <;> rfl
  | cons r rest ih =>
    by_cases h2 : k' = k
    · subst h2
      by_cases h1 : billKeyOf r = k'
      · have hgr : billKeyOf (g r) = k' := by rw [hg r h1, h1]
        simp [updateBillRows, findBill, h1, hgr]
      · simp only [updateBillRows, List.map_cons, findBill, if_neg h1]
        have := ih
        simp only [updateBillRows] at this
        rw [this]
    · by_cases h1 : billKeyOf r = k
      · have hgr : billKeyOf (g r) = k := by rw [hg r h1, h1]
        have hgr2 : ¬billKeyOf (g r) = k' := by
          rw [hgr]; intro hc; exact h2 hc.symm
        have hr2 : ¬billKeyOf r = k' := by
          rw [h1]; intro hc; exact h2 hc.symm
        simp only [updateBillRows, List.map_cons, findBill, if_pos h1, if_neg hgr2, if_neg hr2]
        have := ih
        simp only [updateBillRows] at this
        rw [this]
      · by_cases h3 : billKeyOf r = k'
        · simp [updateBillRows, findBill, h1, h3, h2]
        · simp only [updateBillRows, List.map_cons, findBill, if_neg h1, if_neg h3]
          have := ih
          simp only [updateBillRows] at this
          rw [this]

/-- Lookup in an appended bills table. -/
theorem findBill_append (bills : List BillRow) (r : BillRow) (k : BillKey) :
    findBill (bills ++ [r]) k =
      match findBill bills k with
      | some x => some x
      | none => if billKeyOf r = k then some r else none := by
  induction bills with
  | nil => simp [findBill]
  | cons x rest ih =>
    by_cases hx : billKeyOf x = k
    · simp [findBill, hx]
    · simp only [List.cons_append, findBill, if_neg hx]
      exact ih

/-- Reading the watermark through a known lookup result. -/
theorem watermarkIn_eq_of_findBill (bills : List BillRow) (k : BillKey) (r : BillRow)
    (h : findBill bills k = some r) : watermarkIn bills k = r.lastProcessedAt := by
  unfold watermarkIn
  rw [h]

/-- Appending a row whose watermark is NULL moves no watermark. -/
theorem watermarkIn_append_stub (bills : List BillRow) (r : BillRow) (k : BillKey)
    (hr : r.lastProcessedAt = none) :
    watermarkIn (bills ++ [r]) k = watermarkIn bills k := by
  unfold watermarkIn
  rw [findBill_append]
  cases hfk : findBill bills k with
  | some x => rfl
  | none =>
    by_cases hc : billKeyOf r = k
    · rw [if_pos hc]
      exact hr
    · rw [if_neg hc]

/-- The core bill upsert stamps the watermark of its own key with the
transaction time. -/
theorem watermarkIn_applyBillUpsert_self (now : Int) (db : DbState) (b : BillData) :
    watermarkIn (applyBillUpsert now db b).1.bills (billDataKey b) = some now := by
  cases hf : findBill db.bills (billDataKey b) with
  | some r =>
    have hstep : (applyBillUpsert now db b).1.bills =
        updateBillRows db.bills (billDataKey b) (mainBillRowUpdate now b) := by
      unfold applyBillUpsert
      rw [hf]
    rw [hstep]
    unfold watermarkIn
    rw [findBill_updateBillRows db.bills (billDataKey b) (billDataKey b)
      (mainBillRowUpdate now b) (fun x _ => rfl), if_pos rfl, hf]
    rfl
  | none =>
    have hstep : (applyBillUpsert now db b).1.bills =
        db.bills ++ [mainBillNewRow now b (freshBillId db.bills)] := by
      unfold applyBillUpsert
      rw [hf]
    rw [hstep]
    unfold watermarkIn
    rw [findBill_append, hf]
    simp [mainBillNewRow, billKeyOf, billDataKey]

/-- The core bill upsert does not move any other key's watermark. -/
theorem watermarkIn_applyBillUpsert_other (now : Int) (db : DbState) (b : BillData)
    (k : BillKey) (hk : k ≠ billDataKey b) :
    watermarkIn (applyBillUpsert now db b).1.bills k = watermarkIn db.bills k := by
  cases hf : findBill db.bills (billDataKey b) with
  | some r =>
    have hstep : (applyBillUpsert now db b).1.bills =
        updateBillRows db.bills (billDataKey b) (mainBillRowUpdate now b) := by
      unfold applyBillUpsert
      rw [hf]
    rw [hstep]
    unfold watermarkIn
    rw [findBill_updateBillRows db.bills (billDataKey b) k
      (mainBillRowUpdate now b) (fun x _ => rfl), if_neg hk]
  | none =>
    have hstep : (applyBillUpsert now db b).1.bills =
        db.bills ++ [mainBillNewRow now b (freshBillId db.bills)] := by
      unfold applyBillUpsert
      rw [hf]
    rw [hstep]
    unfold watermarkIn
    rw [findBill_append]
    cases hfk : findBill db.bills k with
    | some x => rfl
    | none =>
      have hne : ¬billKeyOf (mainBillNewRow now b (freshBillId db.bills)) = k := by
        intro hc
        exact hk ((show billKeyOf (mainBillNewRow now b (freshBillId db.bills)) =
          billDataKey b from rfl) ▸ hc).symm
      simp [hne]

/-- The related-bill stub upsert never touches a watermark: an existing
row keeps its value (the update sets only the title) and a fresh stub
starts with NULL. -/
theorem watermarkIn_relatedStubUpsert (bills : List BillRow) (d : RelatedBillData)
    (k : BillKey) :
    watermarkIn (relatedStubUpsert bills d).1 k = watermarkIn bills k := by
  cases hf : findBill bills (d.congress, d.btype, d.number) with
  | some r =>
    have hstep : (relatedStubUpsert bills d).1 =
        updateBillRows bills (d.congress, d.btype, d.number)
          (fun x => { x with title := some (orDefault d.title "Untitled Bill") }) := by
      unfold relatedStubUpsert
      rw [hf]
    rw [hstep]
    unfold watermarkIn
    rw [findBill_updateBillRows bills (d.congress, d.btype, d.number) k
      (fun x => { x with title := some (orDefault d.title "Untitled Bill") })
      (fun x _ => rfl)]
    by_cases hk : k = (d.congress, d.btype, d.number)
    · rw [if_pos hk]
      cases hfk : findBill bills k with
      | some x => rfl
      | none => rfl
    · rw [if_neg hk]
  | none =>
    have hstep : (relatedStubUpsert bills d).1 =
        bills ++
          [{ id := freshBillId bills, congress := d.congress, btype := d.btype,
              number := d.number, originChamber := none,
              title := some (orDefault d.title "Untitled Bill"), introducedDate := none,
              policyAreaName := none, sponsor := none, isByRequest := none,
              constitutionalAuthorityStatementText := none, updatedAt := none,
              updatedAtIncludingText := none, lastProcessedAt := none }] := by
      unfold relatedStubUpsert
      rw [hf]
    rw [hstep]
    exact watermarkIn_append_stub bills _ k rfl

/-- The associated-bill stub upsert of the committee-report script never
touches a watermark either. -/
theorem watermarkIn_ensureBillAssoc (bills : List BillRow) (congress : Int) (btype : String)
    (number : Int) (k : BillKey) :
    watermarkIn (ensureBillForReportAssociation bills congress btype number).1 k =
      watermarkIn bills k := by
  cases hf : findBill bills (congress, btype, number) with
  | some r =>
    have hstep : (ensureBillForReportAssociation bills congress btype number).1 =
        updateBillRows bills (congress, btype, number)
          (fun x => { x with congress := congress }) := by
      unfold ensureBillForReportAssociation
      rw [hf]
    rw [hstep]
    unfold watermarkIn
    rw [findBill_updateBillRows bills (congress, btype, number) k
      (fun x => { x with congress := congress })
      (fun x hx => by
        have h1 : x.congress = congress := congrArg Prod.fst hx
        show (congress, x.btype, x.number) = (x.congress, x.btype, x.number)
        rw [h1])]
    by_cases hk : k = (congress, btype, number)
    · rw [if_pos hk]
      cases hfk : findBill bills k with
      | some x => rfl
      | none => rfl
    · rw [if_neg hk]
  | none =>
    have hstep : (ensureBillForReportAssociation bills congress btype number).1 =
        bills ++
          [{ id := freshBillId bills, congress := congress, btype := btype, number := number,
              originChamber := none, title := none, introducedDate := none,
              policyAreaName := none, sponsor := none, isByRequest := none,
              constitutionalAuthorityStatementText := none, updatedAt := none,
              updatedAtIncludingText := none, lastProcessedAt := none }] := by
      unfold ensureBillForReportAssociation
      rw [hf]
    rw [hstep]
    exact watermarkIn_append_stub bills _ k rfl

/-- Inserting a member stub touches only the `members` table. -/
theorem insertMemberIfAbsent_bills (db : DbState) (m : ApiMember) :
    (insertMemberIfAbsent db m).bills = db.bills := by
  unfold insertMemberIfAbsent
  split <;> rfl

/-- The missing-member fetch loop touches only the `members` table. -/
theorem fetchMissingMembers_bills (f : String → Option ApiMember) :
    ∀ (ids : List String) (db : DbState), (fetchMissingMembers f db ids).bills = db.bills := by
  intro ids
  induction ids with
  | nil => intro db; rfl
  | cons s rest ih =>
    intro db
    cases hs : f s with
    | some m =>
      have hstep : fetchMissingMembers f db (s :: rest) =
          fetchMissingMembers f (insertMemberIfAbsent db m) rest := by
        simp only [fetchMissingMembers]
        rw [hs]
      rw [hstep, ih, insertMemberIfAbsent_bills]
    | none =>
      have hstep : fetchMissingMembers f db (s :: rest) = fetchMissingMembers f db rest := by
        simp only [fetchMissingMembers]
        rw [hs]
      rw [hstep, ih]

/-- The core bill upsert touches only the `bills` table. -/
theorem applyBillUpsert_members (now : Int) (db : DbState) (b : BillData) :
    (applyBillUpsert now db b).1.members = db.members := by
  unfold applyBillUpsert
  cases hf : findBill db.bills (billDataKey b) <;> rfl

/-- The actions loop touches neither `members` nor `bills`. -/
theorem processActions_core (billId : Nat) (items : List ActionData) :
    ∀ db : DbState,
      (processActions db billId items).members = db.members ∧
        (processActions db billId items).bills = db.bills := by
  induction items with
  | nil => intro db; exact ⟨rfl, rfl⟩
  | cons a rest ih =>
    intro db
    have hstep : processActions db billId (a :: rest) =
        processActions
          { db with
              billActions :=
                upsertActionRow db.billActions
                  ⟨billId, a.actionDate, orDefault a.text "No description", a.atype,
                    a.actionCode, a.sourceSystemName⟩ }
          billId rest := rfl
    rw [hstep]
    exact ih _

/-- The summaries loop touches neither `members` nor `bills`. -/
theorem processSummaries_core (billId : Nat) (items : List SummaryData) :
    ∀ db : DbState,
      (processSummaries db billId items).members = db.members ∧
        (processSummaries db billId items).bills = db.bills := by
  induction items with
  | nil => intro db; exact ⟨rfl, rfl⟩
  | cons s rest ih =>
    intro db
    have hstep : processSummaries db billId (s :: rest) =
        processSummaries
          { db with
              billSummaries :=
                insertSummaryRow db.billSummaries
                  ⟨billId, s.versionCode, s.actionDescription, s.actionDate, s.text,
                    s.updatedAt⟩ }
          billId rest := rfl
    rw [hstep]
    exact ih _

/-- The titles loop touches neither `members` nor `bills`. -/
theorem processTitles_core (billId : Nat) (items : List TitleData) :
    ∀ db : DbState,
      (processTitles db billId items).members = db.members ∧
        (processTitles db billId items).bills = db.bills := by
  induction items with
  | nil => intro db; exact ⟨rfl, rfl⟩
  | cons t rest ih =>
    intro db
    have hstep : processTitles db billId (t :: rest) =
        processTitles
          { db with
              billTitles :=
                insertTitleRow db.billTitles
                  ⟨billId, t.titleType, t.title, t.chamberCode, t.chamberName⟩ }
          billId rest := rfl
    rw [hstep]
    exact ih _

/-- The report block touches neither `members` nor `bills`. -/
theorem processReports_core (fr : String → Option ReportDetail) (billId : Nat) :
    ∀ (stubs : List ReportStub) (db : DbState),
      (processReports fr db billId stubs).members = db.members ∧
        (processReports fr db billId stubs).bills = db.bills := by
  intro stubs
  induction stubs with
  | nil => intro db; exact ⟨rfl, rfl⟩
  | cons stub rest ih =>
    intro db
    obtain ⟨ourl, ocit⟩ := stub
    cases ourl with
    | none =>
      have hstep : processReports fr db billId (⟨none, ocit⟩ :: rest) =
          processReports fr db billId rest := by
        simp only [processReports]
      rw [hstep]
      exact ih _
    | some u =>
      by_cases he : u.isEmpty = true
      · have hstep : processReports fr db billId (⟨some u, ocit⟩ :: rest) =
            processReports fr db billId rest := by
          simp only [processReports]
          rw [if_pos he]
        rw [hstep]
        exact ih _
      · cases hfr : fr u with
        | none =>
          have hstep : processReports fr db billId (⟨some u, ocit⟩ :: rest) =
              processReports fr db billId rest := by
            simp only [processReports]
            rw [if_neg he, hfr]
          rw [hstep]
          exact ih _
        | some d =>
          have hstep : processReports fr db billId (⟨some u, ocit⟩ :: rest) =
              processReports fr
                (if ((upsertReport db.committeeReports d).2, billId) ∈
                    db.reportAssociatedBills then
                  { db with committeeReports := (upsertReport db.committeeReports d).1 }
                else
                  { db with
                      committeeReports := (upsertReport db.committeeReports d).1,
                      reportAssociatedBills :=
                        db.reportAssociatedBills ++
                          [((upsertReport db.committeeReports d).2, billId)] })
                billId rest := by
            simp only [processReports]
            rw [if_neg he, hfr]
          rw [hstep]
          constructor
          · rw [(ih _).1]
            split <;> rfl
          · rw [(ih _).2]
            split <;> rfl

/-- The relationship-link fold touches only the `related_bills` table. -/
theorem relLinkFold_core (billId rid : Nat) :
    ∀ (rels : List RelationshipDetail) (db1 : DbState),
      ((rels.foldl
          (fun dd rel =>
            if ∃ r ∈ dd.relatedBills,
                r.billId = billId ∧ r.relatedBillId = rid ∧
                  r.identifiedBy = rel.identifiedBy then
              dd
            else
              { dd with
                  relatedBills :=
                    dd.relatedBills ++ [⟨billId, rid, rel.rtype, rel.identifiedBy⟩] })
          db1)).members = db1.members ∧
        ((rels.foldl
          (fun dd rel =>
            if ∃ r ∈ dd.relatedBills,
                r.billId = billId ∧ r.relatedBillId = rid ∧
                  r.identifiedBy = rel.identifiedBy then
              dd
            else
              { dd with
                  relatedBills :=
                    dd.relatedBills ++ [⟨billId, rid, rel.rtype, rel.identifiedBy⟩] })
          db1)).bills = db1.bills := by
  intro rels
  induction rels with
  | nil => intro db1; exact ⟨rfl, rfl⟩
  | cons rel rest ih =>
    intro db1
    rw [List.foldl_cons]
    constructor
    · rw [(ih _).1]
      split <;> rfl
    · rw [(ih _).2]
      split <;> rfl

/-- The related-bills block keeps `members` intact and moves no
watermark in the `bills` table. -/
theorem processRelated_core (billId : Nat) :
    ∀ (l : List RelatedBillData) (db : DbState),
      (processRelated db billId l).members = db.members ∧
        ∀ k, watermarkIn (processRelated db billId l).bills k = watermarkIn db.bills k := by
  intro l
  induction l with
  | nil => intro db; exact ⟨rfl, fun k => rfl⟩
  | cons d rest ih =>
    intro db
    have hstep : processRelated db billId (d :: rest) =
        processRelated
          (d.relationshipDetails.foldl
            (fun dd rel =>
              if ∃ r ∈ dd.relatedBills,
                  r.billId = billId ∧ r.relatedBillId = (relatedStubUpsert db.bills d).2 ∧
                    r.identifiedBy = rel.identifiedBy then
                dd
              else
                { dd with
                    relatedBills :=
                      dd.relatedBills ++
                        [⟨billId, (relatedStubUpsert db.bills d).2, rel.rtype,
                          rel.identifiedBy⟩] })
            { db with bills := (relatedStubUpsert db.bills d).1 })
          billId rest := by
      simp only [processRelated]
    rw [hstep]
    obtain ⟨hm, hb⟩ :=
      relLinkFold_core billId (relatedStubUpsert db.bills d).2 d.relationshipDetails
        { db with bills := (relatedStubUpsert db.bills d).1 }
    constructor
    · rw [(ih _).1, hm]
    · intro k
      rw [(ih _).2 k, hb]
      exact watermarkIn_relatedStubUpsert db.bills d k

/-- Member insertion preserves stored member ids. -/
theorem memberIds_insertMemberIfAbsent_mono (db : DbState) (m : ApiMember) (s : String)
    (h : s ∈ memberIds db) : s ∈ memberIds (insertMemberIfAbsent db m) := by
  unfold insertMemberIfAbsent
  split
  · exact h
  · simp only [memberIds, List.map_append, List.mem_append]
    exact Or.inl h

/-- After the insert, the fetched member's id is stored. -/
theorem memberIds_insertMemberIfAbsent_self (db : DbState) (m : ApiMember) :
    m.bioguideId ∈ memberIds (insertMemberIfAbsent db m) := by
  unfold insertMemberIfAbsent
  split
  · rename_i h
    exact h
  · simp [memberIds]

/-- Member insertion introduces no id other than the fetched one. -/
theorem memberIds_insertMemberIfAbsent_absent (db : DbState) (m : ApiMember) (c : String)
    (h : c ∉ memberIds db) (hm : m.bioguideId ≠ c) :
    c ∉ memberIds (insertMemberIfAbsent db m) := by
  unfold insertMemberIfAbsent
  split
  · exact h
  · intro hc
    simp only [memberIds, List.map_append, List.mem_append, List.map_cons, List.map_nil,
      List.mem_singleton] at hc
    rcases hc with hc | hc
    · exact h hc
    · exact hm hc.symm

/-- The missing-member fetch loop preserves stored member ids. -/
theorem memberIds_fetchMissingMembers_mono (f : String → Option ApiMember) :
    ∀ (ids : List String) (db : DbState) (s : String),
      s ∈ memberIds db → s ∈ memberIds (fetchMissingMembers f db ids) := by
  intro ids
  induction ids with
  | nil => intro db s h; exact h
  | cons a rest ih =>
    intro db s h
    cases ha : f a with
    | some m =>
      have hstep : fetchMissingMembers f db (a :: rest) =
          fetchMissingMembers f (insertMemberIfAbsent db m) rest := by
        simp only [fetchMissingMembers]
        rw [ha]
      rw [hstep]
      exact ih _ _ (memberIds_insertMemberIfAbsent_mono db m s h)
    | none =>
      have hstep : fetchMissingMembers f db (a :: rest) = fetchMissingMembers f db rest := by
        simp only [fetchMissingMembers]
        rw [ha]
      rw [hstep]
      exact ih _ _ h

/-- A listed id whose fetch succeeds with a matching bioguide id is
stored after the fetch loop. -/
theorem memberIds_fetchMissingMembers_hit (f : String → Option ApiMember) :
    ∀ (ids : List String) (db : DbState) (s : String) (m : ApiMember),
      s ∈ ids → f s = some m → m.bioguideId = s →
      s ∈ memberIds (fetchMissingMembers f db ids) := by
  intro ids
  induction ids with
  | nil => intro db s m hmem; exact absurd hmem (List.not_mem_nil s)
  | cons a rest ih =>
    intro db s m hmem hf hid
    rcases List.mem_cons.mp hmem with heq | hrest
    · subst heq
      have hstep : fetchMissingMembers f db (s :: rest) =
          fetchMissingMembers f (insertMemberIfAbsent db m) rest := by
        simp only [fetchMissingMembers]
        rw [hf]
      rw [hstep]
      exact memberIds_fetchMissingMembers_mono f rest _ s
        (hid ▸ memberIds_insertMemberIfAbsent_self db m)
    · cases ha : f a with
      | some m2 =>
        have hstep : fetchMissingMembers f db (a :: rest) =
            fetchMissingMembers f (insertMemberIfAbsent db m2) rest := by
          simp only [fetchMissingMembers]
          rw [ha]
        rw [hstep]
        exact ih _ s m hrest hf hid
      | none =>
        have hstep : fetchMissingMembers f db (a :: rest) = fetchMissingMembers f db rest := by
          simp only [fetchMissingMembers]
          rw [ha]
        rw [hstep]
        exact ih _ s m hrest hf hid

/-- If the oracle never produces the id `c`, the fetch loop cannot
introduce it. -/
theorem memberIds_fetchMissingMembers_absent (f : String → Option ApiMember) (c : String)
    (hno : ∀ s m, f s = some m → m.bioguideId ≠ c) :
    ∀ (ids : List String) (db : DbState),
      c ∉ memberIds db → c ∉ memberIds (fetchMissingMembers f db ids) := by
  intro ids
  induction ids with
  | nil => intro db h; exact h
  | cons a rest ih =>
    intro db h
    cases ha : f a with
    | some m =>
      have hstep : fetchMissingMembers f db (a :: rest) =
          fetchMissingMembers f (insertMemberIfAbsent db m) rest := by
        simp only [fetchMissingMembers]
        rw [ha]
      rw [hstep]
      exact ih _ (memberIds_insertMemberIfAbsent_absent db m c h (hno a m ha))
    | none =>
      have hstep : fetchMissingMembers f db (a :: rest) = fetchMissingMembers f db rest := by
        simp only [fetchMissingMembers]
        rw [ha]
      rw [hstep]
      exact ih _ h

/-- The cosponsor insert loop, when it commits, touches only the
`bill_cosponsors` table. -/
theorem insertCosponsorRows_ok_core (billId : Nat) :
    ∀ (cs : List CosponsorData) (db db' : DbState),
      insertCosponsorRows billId db cs = .ok db' →
      db'.members = db.members ∧ db'.bills = db.bills := by
  intro cs
  induction cs with
  | nil =>
    intro db db' h
    simp only [insertCosponsorRows] at h
    injection h with h
    subst h
    exact ⟨rfl, rfl⟩
  | cons cdata rest ih =>
    intro db db' h
    obtain ⟨obid, odate, oorig, owd⟩ := cdata
    cases obid with
    | none =>
      have hstep : insertCosponsorRows billId db (⟨none, odate, oorig, owd⟩ :: rest) =
          insertCosponsorRows billId db rest := by
        simp only [insertCosponsorRows]
      rw [hstep] at h
      exact ih db db' h
    | some cid =>
      by_cases he : cid.isEmpty = true
      · have hstep : insertCosponsorRows billId db (⟨some cid, odate, oorig, owd⟩ :: rest) =
            insertCosponsorRows billId db rest := by
          simp only [insertCosponsorRows]
          rw [if_pos he]
        rw [hstep] at h
        exact ih db db' h
      · by_cases hmem : cid ∈ memberIds db
        · have hstep : insertCosponsorRows billId db (⟨some cid, odate, oorig, owd⟩ :: rest) =
              insertCosponsorRows billId
                (if ∃ r ∈ db.billCosponsors, r.billId = billId ∧ r.memberBioguideId = cid then
                  db
                else
                  { db with
                      billCosponsors :=
                        db.billCosponsors ++ [⟨billId, cid, odate, oorig, owd⟩] })
                rest := by
            simp only [insertCosponsorRows]
            rw [if_neg he, if_pos hmem]
          rw [hstep] at h
          obtain ⟨h1, h2⟩ := ih _ db' h
          constructor
          · rw [h1]
            split <;> rfl
          · rw [h2]
            split <;> rfl
        · have hstep : insertCosponsorRows billId db (⟨some cid, odate, oorig, owd⟩ :: rest) =
              .error (.cosponsorFk cid) := by
            simp only [insertCosponsorRows]
            rw [if_neg he, if_neg hmem]
          rw [hstep] at h
          exact Except.noConfusion h

/-- The cosponsor insert loop fails only with a cosponsor foreign-key
error. -/
theorem insertCosponsorRows_error_shape (billId : Nat) :
    ∀ (cs : List CosponsorData) (db : DbState) (e : WriteError),
      insertCosponsorRows billId db cs = .error e → ∃ cid, e = .cosponsorFk cid := by
  intro cs
  induction cs with
  | nil =>
    intro db e h
    simp only [insertCosponsorRows] at h
    exact Except.noConfusion h
  | cons cdata rest ih =>
    intro db e h
    obtain ⟨obid, odate, oorig, owd⟩ := cdata
    cases obid with
    | none =>
      have hstep : insertCosponsorRows billId db (⟨none, odate, oorig, owd⟩ :: rest) =
          insertCosponsorRows billId db rest := by
        simp only [insertCosponsorRows]
      rw [hstep] at h
      exact ih db e h
    | some cid =>
      by_cases he : cid.isEmpty = true
      · have hstep : insertCosponsorRows billId db (⟨some cid, odate, oorig, owd⟩ :: rest) =
            insertCosponsorRows billId db rest := by
          simp only [insertCosponsorRows]
          rw [if_pos he]
        rw [hstep] at h
        exact ih db e h
      · by_cases hmem : cid ∈ memberIds db
        · have hstep : insertCosponsorRows billId db (⟨some cid, odate, oorig, owd⟩ :: rest) =
              insertCosponsorRows billId
                (if ∃ r ∈ db.billCosponsors, r.billId = billId ∧ r.memberBioguideId = cid then
                  db
                else
                  { db with
                      billCosponsors :=
                        db.billCosponsors ++ [⟨billId, cid, odate, oorig, owd⟩] })
                rest := by
            simp only [insertCosponsorRows]
            rw [if_neg he, if_pos hmem]
          rw [hstep] at h
          exact ih _ e h
        · have hstep : insertCosponsorRows billId db (⟨some cid, odate, oorig, owd⟩ :: rest) =
              .error (.cosponsorFk cid) := by
            simp only [insertCosponsorRows]
            rw [if_neg he, if_neg hmem]
          rw [hstep] at h
          injection h with h
          exact ⟨cid, h.symm⟩

/-- A truthy cosponsor id that is not stored poisons the insert loop:
the loop necessarily fails, because it never grows the member set. -/
theorem insertCosponsorRows_poisoned (billId : Nat) (c : String) :
    ∀ (cs : List CosponsorData) (db : DbState),
      c ∈ cosponsorIds cs → c ∉ memberIds db →
      ∃ e, insertCosponsorRows billId db cs = .error e := by
  intro cs
  induction cs with
  | nil =>
    intro db hc
    exact absurd hc (by simp [cosponsorIds])
  | cons cdata rest ih =>
    intro db hc habs
    obtain ⟨obid, odate, oorig, owd⟩ := cdata
    cases obid with
    | none =>
      have hids : cosponsorIds (⟨none, odate, oorig, owd⟩ :: rest) = cosponsorIds rest := by
        simp [cosponsorIds, List.filterMap_cons]
      have hstep : insertCosponsorRows billId db (⟨none, odate, oorig, owd⟩ :: rest) =
          insertCosponsorRows billId db rest := by
        simp only [insertCosponsorRows]
      rw [hstep]
      exact ih db (hids ▸ hc) habs
    | some cid =>
      by_cases he : cid.isEmpty = true
      · have hids : cosponsorIds (⟨some cid, odate, oorig, owd⟩ :: rest) =
            cosponsorIds rest := by
          simp [cosponsorIds, List.filterMap_cons, he]
        have hstep : insertCosponsorRows billId db (⟨some cid, odate, oorig, owd⟩ :: rest) =
            insertCosponsorRows billId db rest := by
          simp only [insertCosponsorRows]
          rw [if_pos he]
        rw [hstep]
        exact ih db (hids ▸ hc) habs
      · have hids : cosponsorIds (⟨some cid, odate, oorig, owd⟩ :: rest) =
            cid :: cosponsorIds rest := by
          simp [cosponsorIds, List.filterMap_cons, he]
        rw [hids] at hc
        rcases List.mem_cons.mp hc with heq | hrest
        · subst heq
          have hstep : insertCosponsorRows billId db (⟨some c, odate, oorig, owd⟩ :: rest) =
              .error (.cosponsorFk c) := by
            simp only [insertCosponsorRows]
            rw [if_neg he, if_neg habs]
          exact ⟨_, hstep⟩
        · by_cases hmem : cid ∈ memberIds db
          · have hstep : insertCosponsorRows billId db
                (⟨some cid, odate, oorig, owd⟩ :: rest) =
                insertCosponsorRows billId
                  (if ∃ r ∈ db.billCosponsors,
                      r.billId = billId ∧ r.memberBioguideId = cid then
                    db
                  else
                    { db with
                        billCosponsors :=
                          db.billCosponsors ++ [⟨billId, cid, odate, oorig, owd⟩] })
                  rest := by
              simp only [insertCosponsorRows]
              rw [if_neg he, if_pos hmem]
            rw [hstep]
            refine ih _ hrest ?_
            split <;> exact habs
          · have hstep : insertCosponsorRows billId db
                (⟨some cid, odate, oorig, owd⟩ :: rest) =
                .error (.cosponsorFk cid) := by
              simp only [insertCosponsorRows]
              rw [if_neg he, if_neg hmem]
            exact ⟨_, hstep⟩

/-- The cosponsor block unfolds to fetch-then-insert. -/
theorem processCosponsors_eq (f : String → Option ApiMember) (db : DbState) (billId : Nat)
    (cs : List CosponsorData) :
    processCosponsors f db billId cs =
      insertCosponsorRows billId
        (fetchMissingMembers f db ((cosponsorIds cs).filter fun s => s ∉ memberIds db)) cs :=
  rfl

/-- A committed cosponsor block preserves the `bills` table. -/
theorem processCosponsors_ok_bills (f : String → Option ApiMember) (db : DbState)
    (billId : Nat) (cs : List CosponsorData) (db' : DbState)
    (h : processCosponsors f db billId cs = .ok db') : db'.bills = db.bills := by
  rw [processCosponsors_eq] at h
  have h2 := (insertCosponsorRows_ok_core billId cs _ db' h).2
  rw [h2, fetchMissingMembers_bills]

/-- A committed cosponsor block only grows the member set. -/
theorem processCosponsors_ok_members_mono (f : String → Option ApiMember) (db : DbState)
    (billId : Nat) (cs : List CosponsorData) (db' : DbState)
    (h : processCosponsors f db billId cs = .ok db') (s : String) (hs : s ∈ memberIds db) :
    s ∈ memberIds db' := by
  rw [processCosponsors_eq] at h
  have h1 := (insertCosponsorRows_ok_core billId cs _ db' h).1
  have hmem := memberIds_fetchMissingMembers_mono f
    ((cosponsorIds cs).filter fun s => s ∉ memberIds db) db s hs
  unfold memberIds at hmem ⊢
  rw [h1]
  exact hmem

/-- A committed cosponsor block cannot introduce an id the oracle never
produces. -/
theorem processCosponsors_ok_absent (f : String → Option ApiMember) (db : DbState)
    (billId : Nat) (cs : List CosponsorData) (db' : DbState) (c : String)
    (h : processCosponsors f db billId cs = .ok db')
    (hno : ∀ s m, f s = some m → m.bioguideId ≠ c) (habs : c ∉ memberIds db) :
    c ∉ memberIds db' := by
  rw [processCosponsors_eq] at h
  have h1 := (insertCosponsorRows_ok_core billId cs _ db' h).1
  have habs2 := memberIds_fetchMissingMembers_absent f c hno
    ((cosponsorIds cs).filter fun s => s ∉ memberIds db) db habs
  unfold memberIds at habs2 ⊢
  rw [h1]
  exact habs2

/-- An unresolvable truthy cosponsor id fails the whole cosponsor
block. -/
theorem processCosponsors_poisoned (f : String → Option ApiMember) (db : DbState)
    (billId : Nat) (cs : List CosponsorData) (c : String)
    (hc : c ∈ cosponsorIds cs)
    (hno : ∀ s m, f s = some m → m.bioguideId ≠ c) (habs : c ∉ memberIds db) :
    ∃ e, processCosponsors f db billId cs = .error e := by
  rw [processCosponsors_eq]
  exact insertCosponsorRows_poisoned billId c cs _ hc
    (memberIds_fetchMissingMembers_absent f c hno _ db habs)

/-- A committed core upsert is exactly `applyBillUpsert`. -/
theorem upsertBill_ok_eq (now : Int) (db : DbState) (b : BillData) (p : DbState × Nat)
    (h : upsertBill now db b = .ok p) : p = applyBillUpsert now db b := by
  cases hs : sponsorOf b with
  | some s =>
    have hstep : upsertBill now db b =
        if s ∈ memberIds db then .ok (applyBillUpsert now db b)
        else .error (.sponsorFk s) := by
      unfold upsertBill
      rw [hs]
    rw [hstep] at h
    by_cases hmem : s ∈ memberIds db
    · rw [if_pos hmem] at h
      injection h with h
      exact h.symm
    · rw [if_neg hmem] at h
      exact Except.noConfusion h
  | none =>
    have hstep : upsertBill now db b = .ok (applyBillUpsert now db b) := by
      unfold upsertBill
      rw [hs]
    rw [hstep] at h
    injection h with h
    exact h.symm

/-- The core upsert cannot fail when the bill has no sponsor or its
sponsor is already stored. -/
theorem upsertBill_ok_of_sponsor (now : Int) (db : DbState) (b : BillData)
    (hs : ∀ s, sponsorOf b = some s → s ∈ memberIds db) :
    upsertBill now db b = .ok (applyBillUpsert now db b) := by
  cases hsp : sponsorOf b with
  | some s =>
    have hstep : upsertBill now db b =
        if s ∈ memberIds db then .ok (applyBillUpsert now db b)
        else .error (.sponsorFk s) := by
      unfold upsertBill
      rw [hsp]
    rw [hstep, if_pos (hs s hsp)]
  | none =>
    unfold upsertBill
    rw [hsp]

/-- Unfolding one bill's processing after a committed core upsert. -/
theorem processBill_decomp (f : String → Option ApiMember) (fr : String → Option ReportDetail)
    (now : Int) (db : DbState) (b : BillData) (db1 : DbState) (billId : Nat)
    (hub : upsertBill now db b = .ok (db1, billId)) :
    processBill f fr now db b =
      match processCosponsors f (processActions db1 billId b.actions) billId b.cosponsors with
      | .error e => .error e
      | .ok db3 =>
        .ok (processTitles
              (processSummaries
                (processRelated (processReports fr db3 billId b.committeeReports) billId
                  b.relatedBills)
                billId b.summaries)
              billId b.titles) := by
  unfold processBill
  rw [hub]

/-- A failed core upsert fails the bill's processing unchanged. -/
theorem processBill_decomp_error (f : String → Option ApiMember)
    (fr : String → Option ReportDetail) (now : Int) (db : DbState) (b : BillData)
    (e : WriteError) (hub : upsertBill now db b = .error e) :
    processBill f fr now db b = .error e := by
  unfold processBill
  rw [hub]

/-- A committed bill keeps every stored member and stamps exactly its
own key's watermark. -/
theorem processBill_ok_facts (f : String → Option ApiMember)
    (fr : String → Option ReportDetail) (now : Int) (db : DbState) (b : BillData)
    (db' : DbState) (h : processBill f fr now db b = .ok db') :
    (∀ s, s ∈ memberIds db → s ∈ memberIds db') ∧
      ∀ k, watermarkIn db'.bills k =
        if k = billDataKey b then some now else watermarkIn db.bills k := by
  cases hub : upsertBill now db b with
  | error e =>
    rw [processBill_decomp_error f fr now db b e hub] at h
    exact Except.noConfusion h
  | ok p =>
    obtain ⟨db1, billId⟩ := p
    rw [processBill_decomp f fr now db b db1 billId hub] at h
    cases hpc : processCosponsors f (processActions db1 billId b.actions) billId
        b.cosponsors with
    | error e =>
      rw [hpc] at h
      exact Except.noConfusion h
    | ok db3 =>
      rw [hpc] at h
      injection h with h
      subst h
      have hdb1 : db1 = (applyBillUpsert now db b).1 :=
        congrArg Prod.fst (upsertBill_ok_eq now db b (db1, billId) hub)
      constructor
      · intro s hs
        have h1 : s ∈ memberIds db1 := by
          rw [hdb1]
          unfold memberIds
          rw [applyBillUpsert_members]
          exact hs
        have h2 : s ∈ memberIds (processActions db1 billId b.actions) := by
          unfold memberIds
          rw [(processActions_core billId b.actions db1).1]
          exact h1
        have h3 : s ∈ memberIds db3 :=
          processCosponsors_ok_members_mono f _ billId b.cosponsors db3 hpc s h2
        unfold memberIds
        rw [(processTitles_core billId b.titles _).1, (processSummaries_core billId
          b.summaries _).1, (processRelated_core billId b.relatedBills _).1,
          (processReports_core fr billId b.committeeReports db3).1]
        exact h3
      · intro k
        have hw1 : watermarkIn db1.bills k =
            if k = billDataKey b then some now else watermarkIn db.bills k := by
          rw [hdb1]
          by_cases hk : k = billDataKey b
          · rw [if_pos hk, hk]
            exact watermarkIn_applyBillUpsert_self now db b
          · rw [if_neg hk]
            exact watermarkIn_applyBillUpsert_other now db b k hk
        have hb3 : db3.bills = db1.bills := by
          rw [processCosponsors_ok_bills f _ billId b.cosponsors db3 hpc,
            (processActions_core billId b.actions db1).2]
        rw [(processTitles_core billId b.titles _).2,
          (processSummaries_core billId b.summaries _).2,
          (processRelated_core billId b.relatedBills _).2 k,
          (processReports_core fr billId b.committeeReports db3).2, hb3]
        exact hw1

/-- A committed bill cannot introduce a member id the oracle never
produces. -/
theorem processBill_ok_absent (f : String → Option ApiMember)
    (fr : String → Option ReportDetail) (now : Int) (db : DbState) (b : BillData)
    (db' : DbState) (c : String) (h : processBill f fr now db b = .ok db')
    (hno : ∀ s m, f s = some m → m.bioguideId ≠ c) (habs : c ∉ memberIds db) :
    c ∉ memberIds db' := by
  cases hub : upsertBill now db b with
  | error e =>
    rw [processBill_decomp_error f fr now db b e hub] at h
    exact Except.noConfusion h
  | ok p =>
    obtain ⟨db1, billId⟩ := p
    rw [processBill_decomp f fr now db b db1 billId hub] at h
    cases hpc : processCosponsors f (processActions db1 billId b.actions) billId
        b.cosponsors with
    | error e =>
      rw [hpc] at h
      exact Except.noConfusion h
    | ok db3 =>
      rw [hpc] at h
      injection h with h
      subst h
      have hdb1 : db1 = (applyBillUpsert now db b).1 :=
        congrArg Prod.fst (upsertBill_ok_eq now db b (db1, billId) hub)
      have h1 : c ∉ memberIds db1 := by
        rw [hdb1]
        unfold memberIds
        rw [applyBillUpsert_members]
        exact habs
      have h2 : c ∉ memberIds (processActions db1 billId b.actions) := by
        unfold memberIds
        rw [(processActions_core billId b.actions db1).1]
        exact h1
      have h3 : c ∉ memberIds db3 :=
        processCosponsors_ok_absent f _ billId b.cosponsors db3 c hpc hno h2
      unfold memberIds
      rw [(processTitles_core billId b.titles _).1, (processSummaries_core billId
        b.summaries _).1, (processRelated_core billId b.relatedBills _).1,
        (processReports_core fr billId b.committeeReports db3).1]
      exact h3

/-- A bill whose cosponsor list names an unresolvable truthy id cannot
commit. -/
theorem processBill_poisoned (f : String → Option ApiMember)
    (fr : String → Option ReportDetail) (now : Int) (db : DbState) (b : BillData)
    (c : String) (hc : c ∈ cosponsorIds b.cosponsors)
    (hno : ∀ s m, f s = some m → m.bioguideId ≠ c) (habs : c ∉ memberIds db) :
    ∃ e, processBill f fr now db b = .error e := by
  cases hub : upsertBill now db b with
  | error e => exact ⟨e, processBill_decomp_error f fr now db b e hub⟩
  | ok p =>
    obtain ⟨db1, billId⟩ := p
    have hdb1 : db1 = (applyBillUpsert now db b).1 :=
      congrArg Prod.fst (upsertBill_ok_eq now db b (db1, billId) hub)
    have h2 : c ∉ memberIds (processActions db1 billId b.actions) := by
      unfold memberIds
      rw [(processActions_core billId b.actions db1).1, hdb1, applyBillUpsert_members]
      exact habs
    obtain ⟨e, he⟩ :=
      processCosponsors_poisoned f (processActions db1 billId b.actions) billId
        b.cosponsors c hc hno h2
    refine ⟨e, ?_⟩
    rw [processBill_decomp f fr now db b db1 billId hub, he]

/-- A sponsor-FK failure of one bill's processing can only come from
its core upsert. -/
theorem processBill_sponsorFk_source (f : String → Option ApiMember)
    (fr : String → Option ReportDetail) (now : Int) (db : DbState) (b : BillData)
    (s : String) (h : processBill f fr now db b = .error (.sponsorFk s)) :
    upsertBill now db b = .error (.sponsorFk s) := by
  cases hub : upsertBill now db b with
  | error e =>
    rw [processBill_decomp_error f fr now db b e hub] at h
    injection h with h
    rw [h]
  | ok p =>
    obtain ⟨db1, billId⟩ := p
    rw [processBill_decomp f fr now db b db1 billId hub] at h
    cases hpc : processCosponsors f (processActions db1 billId b.actions) billId
        b.cosponsors with
    | error e =>
      rw [hpc] at h
      injection h with h
      obtain ⟨cid, hcid⟩ := by
        rw [processCosponsors_eq] at hpc
        exact insertCosponsorRows_error_shape billId b.cosponsors _ e hpc
      rw [hcid] at h
      exact WriteError.noConfusion h
    | ok db3 =>
      rw [hpc] at h
      exact Except.noConfusion h

/-- The per-bill loop never fails the sponsor foreign key when every
batch bill's sponsor is already stored. -/
theorem processBills_no_sponsorFk (f : String → Option ApiMember)
    (fr : String → Option ReportDetail) (now : Int) :
    ∀ (batch : List BillData) (db : DbState),
      (∀ b ∈ batch, ∀ s, sponsorOf b = some s → s ∈ memberIds db) →
      isSponsorFkErr (processBills f fr now db batch) = false := by
  intro batch
  induction batch with
  | nil => intro db _; rfl
  | cons b rest ih =>
    intro db hyp
    cases hpb : processBill f fr now db b with
    | error e =>
      have hstep : processBills f fr now db (b :: rest) = .error e := by
        simp only [processBills]
        rw [hpb]
      rw [hstep]
      cases e with
      | sponsorFk s =>
        exfalso
        have hub := processBill_sponsorFk_source f fr now db b s hpb
        have hok := upsertBill_ok_of_sponsor now db b
          (fun s' hs' => hyp b (List.mem_cons_self _ _) s' hs')
        rw [hok] at hub
        exact Except.noConfusion hub
      | cosponsorFk c => rfl
    | ok db1 =>
      have hstep : processBills f fr now db (b :: rest) = processBills f fr now db1 rest := by
        simp only [processBills]
        rw [hpb]
      rw [hstep]
      refine ih db1 (fun b' hb' s hs => ?_)
      exact (processBill_ok_facts f fr now db b db1 hpb).1 s
        (hyp b' (List.mem_cons_of_mem _ hb') s hs)

/-- A batch containing a bill with an unresolvable truthy cosponsor id
cannot commit. -/
theorem processBills_poisoned (f : String → Option ApiMember)
    (fr : String → Option ReportDetail) (now : Int) (c : String)
    (hno : ∀ s m, f s = some m → m.bioguideId ≠ c) :
    ∀ (batch : List BillData) (db : DbState) (b : BillData),
      b ∈ batch → c ∈ cosponsorIds b.cosponsors → c ∉ memberIds db →
      ∃ e, processBills f fr now db batch = .error e := by
  intro batch
  induction batch with
  | nil => intro db b hb; exact absurd hb (List.not_mem_nil b)
  | cons b0 rest ih =>
    intro db b hb hc habs
    cases hpb : processBill f fr now db b0 with
    | error e =>
      refine ⟨e, ?_⟩
      simp only [processBills]
      rw [hpb]
    | ok db1 =>
      have hstep : processBills f fr now db (b0 :: rest) = processBills f fr now db1 rest := by
        simp only [processBills]
        rw [hpb]
      rcases List.mem_cons.mp hb with heq | hrest
      · subst heq
        obtain ⟨e, he⟩ := processBill_poisoned f fr now db b c hc hno habs
        rw [he] at hpb
        exact Except.noConfusion hpb
      · rw [hstep]
        exact ih db1 b hrest hc (processBill_ok_absent f fr now db b0 db1 c hpb hno habs)

/-- A committed per-bill loop stamps exactly the batch's keys. -/
theorem processBills_watermark (f : String → Option ApiMember)
    (fr : String → Option ReportDetail) (now : Int) :
    ∀ (batch : List BillData) (db db' : DbState),
      processBills f fr now db batch = .ok db' →
      ∀ k, (k ∈ batchKeys batch → watermarkIn db'.bills k = some now) ∧
        (k ∉ batchKeys batch → watermarkIn db'.bills k = watermarkIn db.bills k) := by
  intro batch
  induction batch with
  | nil =>
    intro db db' h k
    simp only [processBills] at h
    injection h with h
    subst h
    exact ⟨fun hk => absurd hk (by simp [batchKeys]), fun _ => rfl⟩
  | cons b rest ih =>
    intro db db' h k
    cases hpb : processBill f fr now db b with
    | error e =>
      have hstep : processBills f fr now db (b :: rest) = .error e := by
        simp only [processBills]
        rw [hpb]
      rw [hstep] at h
      exact Except.noConfusion h
    | ok db1 =>
      have hstep : processBills f fr now db (b :: rest) = processBills f fr now db1 rest := by
        simp only [processBills]
        rw [hpb]
      rw [hstep] at h
      have hw := (processBill_ok_facts f fr now db b db1 hpb).2
      have hkeys : batchKeys (b :: rest) = billDataKey b :: batchKeys rest := rfl
      constructor
      · intro hk
        rw [hkeys] at hk
        rcases List.mem_cons.mp hk with heq | hrest2
        · by_cases hkr : k ∈ batchKeys rest
          · exact (ih db1 db' h k).1 hkr
          · rw [(ih db1 db' h k).2 hkr, hw k, if_pos heq]
        · exact (ih db1 db' h k).1 hrest2
      · intro hk
        rw [hkeys] at hk
        have hk1 : k ≠ billDataKey b := fun hcq => hk (by rw [hcq]; exact List.mem_cons_self _ _)
        have hk2 : k ∉ batchKeys rest := fun hcq => hk (List.mem_cons_of_mem _ hcq)
        rw [(ih db1 db' h k).2 hk2, hw k, if_neg hk1]

/-- The sponsor resolution phase touches only the `members` table. -/
theorem resolveSponsors_bills (f : String → Option ApiMember) (db : DbState)
    (batch : List BillData) : (resolveSponsors f db batch).bills = db.bills :=
  fetchMissingMembers_bills f _ db

/-- After sponsor resolution, a sponsor id that was stored or whose
detail fetch succeeds with a matching id is stored. -/
theorem resolveSponsors_resolves (f : String → Option ApiMember) (db : DbState)
    (batch : List BillData) (b : BillData) (s : String) (hb : b ∈ batch)
    (hs : sponsorOf b = some s)
    (hres : s ∈ memberIds db ∨ (s ≠ "" ∧ ∃ m, f s = some m ∧ m.bioguideId = s)) :
    s ∈ memberIds (resolveSponsors f db batch) := by
  unfold resolveSponsors
  rcases hres with hmem | ⟨hne, m, hm, hid⟩
  · exact memberIds_fetchMissingMembers_mono f _ db s hmem
  · by_cases hmem : s ∈ memberIds db
    · exact memberIds_fetchMissingMembers_mono f _ db s hmem
    · refine memberIds_fetchMissingMembers_hit f _ db s m ?_ hm hid
      refine List.mem_filter.mpr ⟨?_, by simpa using hmem⟩
      unfold sponsorHeadIds
      refine List.mem_dedup.mpr ?_
      refine List.mem_filterMap.mpr ⟨b, hb, ?_⟩
      have hne2 : s.isEmpty = false := by
        rw [← Bool.not_eq_true]
        exact fun hh => hne ((String.isEmpty_iff s).mp hh)
      cases hhead : b.sponsors.head? with
      | none =>
        unfold sponsorOf at hs
        rw [hhead] at hs
        exact Option.noConfusion hs
      | some sp =>
        unfold sponsorOf at hs
        rw [hhead] at hs
        have hs2 : sp.bioguideId = some s := hs
        simp only [hhead, hs2]
        show (if s.isEmpty = true then none else some s) = some s
        rw [hne2]
        simp

/-- C3 (amended): the batch write never fails the
`bills.sponsor_bioguide_id` foreign key provided that each batch bill's
head sponsor is either already stored or has a truthy id whose detail
fetch succeeds and returns a member carrying that id — in that case the
stub member row is inserted within the same transaction before the bill
row.  (The original claim is unconditional; the counterexample shows it
fails when the sponsor detail fetch fails.) -/
theorem c3_sponsor_fk_amended (f : String → Option ApiMember)
    (fr : String → Option ReportDetail) (now : Int) (db : DbState) (batch : List BillData)
    (hres : ∀ b ∈ batch, ∀ s, sponsorOf b = some s →
        s ∈ memberIds db ∨ (s ≠ "" ∧ ∃ m, f s = some m ∧ m.bioguideId = s)) :
    isSponsorFkErr (processBatchBody f fr now db batch) = false := by
  unfold processBatchBody
  refine processBills_no_sponsorFk f fr now batch _ (fun b hb s hs => ?_)
  exact resolveSponsors_resolves f db batch b s hb hs (hres b hb s hs)

/-- C3 witness: a batch with one bill whose unseen sponsor `S777` is
fetchable commits without a sponsor foreign-key failure. -/
theorem c3_sponsor_fk_amended_witness :
    isSponsorFkErr
        (processBatchBody oracleS777 (fun _ => none) 0 emptyDb
          [billWithFetchableSponsor]) =
      false :=
  c3_sponsor_fk_amended oracleS777 (fun _ => none) 0 emptyDb [billWithFetchableSponsor]
    (by
      intro b hb s hs
      rw [List.mem_singleton] at hb
      subst hb
      have hval : sponsorOf billWithFetchableSponsor = some "S777" := rfl
      rw [hval] at hs
      injection hs with hs
      subst hs
      exact Or.inr ⟨by decide, ⟨"S777", some "Sam", some "Lee", some true, none⟩,
        by decide, rfl⟩)

/-- C4 (amended): when a referenced cosponsor member cannot be resolved
even after the explicit fetch attempt (and the oracle never yields its
id), the referencing insert is still attempted and fails its foreign
key, so the entire batch transaction is rolled back — nothing from the
batch is persisted, rather than only the single referencing fact being
dropped. -/
theorem c4_unresolved_member_fails_batch (f : String → Option ApiMember)
    (fr : String → Option ReportDetail) (now : Int) (db : DbState) (batch : List BillData)
    (b : BillData) (c : String) (hb : b ∈ batch) (hc : c ∈ cosponsorIds b.cosponsors)
    (habs : c ∉ memberIds db) (hf : f c = none)
    (hno : ∀ s m, f s = some m → m.bioguideId ≠ c) :
    saveBillBatchToDb f fr now db batch = (db, false) := by
  have hne : ¬batch.isEmpty = true := by
    cases batch with
    | nil => exact absurd hb (List.not_mem_nil b)
    | cons x xs => simp
  have habs2 : c ∉ memberIds (resolveSponsors f db batch) :=
    memberIds_fetchMissingMembers_absent f c hno _ db habs
  obtain ⟨e, he⟩ := processBills_poisoned f fr now c hno batch
    (resolveSponsors f db batch) b hb hc habs2
  unfold saveBillBatchToDb
  rw [if_neg hne]
  unfold processBatchBody
  rw [he]

/-- C4 witness: the unresolvable cosponsor `C404` makes the concrete
batch fail as a whole, returning the untouched pre-transaction state. -/
theorem c4_unresolved_member_fails_batch_witness :
    saveBillBatchToDb (fun _ => none) (fun _ => none) 0 dbWithS100 [billWithBadCosponsor] =
      (dbWithS100, false) :=
  c4_unresolved_member_fails_batch (fun _ => none) (fun _ => none) 0 dbWithS100
    [billWithBadCosponsor] billWithBadCosponsor "C404" (List.mem_singleton.mpr rfl)
    (by decide) (by decide) rfl (fun s m h => Option.noConfusion h)

/-- C8: a rolled-back transaction leaves the state — in particular
every watermark — untouched; a committed transaction stamps
`last_processed_at = NOW()` for every bill of the batch and leaves
every key outside the batch with its previous watermark, even though
related-bill stubs may have written rows for such keys; and the
committee-report script's associated-bill stub upsert never touches a
watermark either. -/
theorem c8_watermark_iff (f : String → Option ApiMember) (fr : String → Option ReportDetail)
    (now : Int) (db : DbState) (batch : List BillData) :
    ((saveBillBatchToDb f fr now db batch).2 = false →
        (saveBillBatchToDb f fr now db batch).1 = db) ∧
      ((saveBillBatchToDb f fr now db batch).2 = true →
        (∀ b ∈ batch,
            watermarkIn (saveBillBatchToDb f fr now db batch).1.bills (billDataKey b) =
              some now) ∧
          ∀ k, k ∉ batchKeys batch →
            watermarkIn (saveBillBatchToDb f fr now db batch).1.bills k =
              watermarkIn db.bills k) ∧
      ∀ (bills : List BillRow) (congress : Int) (btype : String) (number : Int)
        (k : BillKey),
        watermarkIn (ensureBillForReportAssociation bills congress btype number).1 k =
          watermarkIn bills k := by
  refine ⟨?_, ?_, fun bills congress btype number k =>
    watermarkIn_ensureBillAssoc bills congress btype number k⟩
  · intro h
    unfold saveBillBatchToDb at h ⊢
    by_cases hbe : batch.isEmpty = true
    · rw [if_pos hbe] at h
      exact absurd h (by simp)
    · rw [if_neg hbe] at h ⊢
      cases hpb : processBatchBody f fr now db batch with
      | ok db' => rw [hpb] at h; exact absurd h (by simp)
      | error e => rfl
  · intro h
    by_cases hbe : batch.isEmpty = true
    · have hstep : saveBillBatchToDb f fr now db batch = (db, true) := by
        unfold saveBillBatchToDb
        rw [if_pos hbe]
      rw [List.isEmpty_iff] at hbe
      subst hbe
      exact ⟨fun b hb => absurd hb (List.not_mem_nil b), fun k _ => by rw [hstep]⟩
    · cases hpb : processBatchBody f fr now db batch with
      | error e =>
        have hstep : saveBillBatchToDb f fr now db batch = (db, false) := by
          unfold saveBillBatchToDb
          rw [if_neg hbe, hpb]
        rw [hstep] at h
        exact absurd h (by simp)
      | ok db' =>
        have hstep : saveBillBatchToDb f fr now db batch = (db', true) := by
          unfold saveBillBatchToDb
          rw [if_neg hbe, hpb]
        have hw := processBills_watermark f fr now batch (resolveSponsors f db batch) db'
          (by unfold processBatchBody at hpb; exact hpb)
        constructor
        · intro b hb
          rw [hstep]
          exact (hw (billDataKey b)).1 (List.mem_map_of_mem _ hb)
        · intro k hk
          rw [hstep]
          have hx := (hw k).2 hk
          rw [show ((db', true).1 : DbState) = db' from rfl, hx, resolveSponsors_bills]

/-- C8 witness: committing a concrete one-bill batch stamps that bill's
watermark with the transaction time. -/
theorem c8_watermark_iff_witness :
    watermarkIn
        (saveBillBatchToDb (fun _ => none) (fun _ => none) 5 emptyDb
            [mkBareBill 119 "hr" 8]).1.bills
        ((119 : Int), "hr", (8 : Int)) =
      some 5 :=
  ((c8_watermark_iff (fun _ => none) (fun _ => none) 5 emptyDb [mkBareBill 119 "hr" 8]).2.1
      (by decide)).1 (mkBareBill 119 "hr" 8) (List.mem_singleton.mpr rfl)
